import Mathlib

set_option maxRecDepth 100000
set_option linter.unusedVariables false

/-!
Verification of the bounded-output rendering and chunking engine of the
LoxleyBot repository.

The Python strings of the source are modelled as lists of Unicode
characters (`PyStr`).  Python's slicing (with its negative-index
wrap-around), `str.find`, `in`, `ljust`/`rjust`/`center`, floor division
and sign-of-divisor modulo are each given a faithful executable model.
The randomized parts (`random.choices`) are parameterized by explicit
choice oracles, so theorems quantify over every outcome of the random
source.
-/

namespace LoxleyBot

/-- Model of a Python `str`: a list of Unicode characters. -/
abbrev PyStr := List Char

/-- Python `str.upper()` restricted to ASCII text: the per-character map.
Python's full case mapping can expand a character to several (`ß` becomes
`SS`), changing the string's length; on characters below code point 128 it
is exactly this single-character map.  Theorems about the emphasis window,
whose match index is computed in the uppercased strings and then used to
slice the original content, therefore hypothesize ASCII operands: beyond
ASCII the index can shift and the window guarantee genuinely fails. -/
def pyUpper (s : PyStr) : PyStr := s.map Char.toUpper

/-- Python `str.ljust(w)`: pad with spaces on the right up to width `w`. -/
def pyLJust (s : PyStr) (w : Nat) : PyStr := s ++ List.replicate (w - s.length) ' '

/-- Python `str.rjust(w)`: pad with spaces on the left up to width `w`. -/
def pyRJust (s : PyStr) (w : Nat) : PyStr := List.replicate (w - s.length) ' ' ++ s

/-- Python `str.center(w)`, following CPython's left-margin computation. -/
def pyCenter (s : PyStr) (w : Nat) : PyStr :=
  if w ≤ s.length then s
  else
    let marg := w - s.length
    let left := marg / 2 + (marg &&& w &&& 1)
    List.replicate left ' ' ++ s ++ List.replicate (marg - left) ' '

/-- Normalize a (possibly negative) Python slice index against a length. -/
def pyIdx (len : Nat) (i : Int) : Nat :=
  if i < 0 then ((len : Int) + i).toNat else min i.toNat len

/-- Python `s[i:]`. -/
def pySliceFrom (s : PyStr) (i : Int) : PyStr := s.drop (pyIdx s.length i)

/-- Python `s[:j]`. -/
def pySliceTo (s : PyStr) (j : Int) : PyStr := s.take (pyIdx s.length j)

/-- Python `s[i:j]`. -/
def pySlice (s : PyStr) (i j : Int) : PyStr :=
  (s.take (pyIdx s.length j)).drop (pyIdx s.length i)

/-- Helper for `pyFind`: scan the haystack left to right. -/
def pyFindAux (needle : PyStr) : PyStr → Nat → Option Nat
  | [], k => if needle = [] then some k else none
  | c :: rest, k =>
    if (c :: rest).take needle.length = needle then some k
    else pyFindAux needle rest (k + 1)

/-- Python `hay.find(needle)` restricted to its successful result. -/
def pyFind (hay needle : PyStr) : Option Nat := pyFindAux needle hay 0

/-- Python `needle in hay` (substring containment). -/
def pyContains (hay needle : PyStr) : Bool := (pyFind hay needle).isSome

/-- Count the occurrences of a substring at every starting position. -/
def countSubAux (needle : PyStr) : PyStr → Nat
  | [] => if needle = [] then 1 else 0
  | c :: rest =>
    (if (c :: rest).take needle.length = needle then 1 else 0) + countSubAux needle rest

/-- Number of occurrences of `needle` inside `hay`. -/
def countSub (hay needle : PyStr) : Nat := countSubAux needle hay

/-- Decimal digits of a natural number, most significant first, with fuel
so that the kernel can evaluate it. -/
def pyStrNatAux : Nat → Nat → List Char
  | 0, _ => []
  | fuel + 1, n =>
    if n = 0 then [] else pyStrNatAux fuel (n / 10) ++ [Nat.digitChar (n % 10)]

/-- Python `str(n)` for a natural number. -/
def pyStrNat (n : Nat) : PyStr := if n = 0 then ['0'] else pyStrNatAux n n

/-- The function `divide_in_pairs` of `functions.py`: split an integer into
a pair of halves, the larger half on the right (Python floor division). -/
def divide_in_pairs (n : Int) : Int × Int :=
  if n % 2 = 0 then (n.fdiv 2, n.fdiv 2) else (n.fdiv 2, n.fdiv 2 + 1)

/-- `settings.DISCORD_CHARACTER_LIMIT`. -/
def DISCORD_CHARACTER_LIMIT : Nat := 2000

/-- `settings.COPYPASTA_LIST_CHARACTERS_PER_ROW`. -/
def COPYPASTA_LIST_CHARACTERS_PER_ROW : Nat := 80

/-- `settings.DISCORD_FILE_BYTE_LIMIT`. -/
def DISCORD_FILE_BYTE_LIMIT : Nat := 8388608

/-- `settings.COPYPASTA_JSON_INDENT_AMOUNT`. -/
def COPYPASTA_JSON_INDENT_AMOUNT : Nat := 2

/-- A copypasta record: id, title, content and usage count, as stored in the
`copypastas` table and handed to the renderer as a tuple. -/
structure Copypasta where
  id : Nat
  title : PyStr
  content : PyStr
  count : Nat
deriving DecidableEq

/-- The `SEPARATOR` glyph of `format_copypasta_list`. -/
def SEPARATOR : PyStr := "|".data

/-- The `PADDING` (elision) glyph of `format_copypasta_list`. -/
def PADDING : PyStr := "…".data

/-- `PADDING_LEN` of `format_copypasta_list`. -/
def PADDING_LEN : Nat := PADDING.length

/-- The Markdown code-fence opening and closing a table. -/
def FENCE : PyStr := "```".data

/-- `LIMIT_LEN_LINE = CHARACTERS_PER_ROW - 5` (five separators). -/
def LIMIT_LEN_LINE : Nat := COPYPASTA_LIST_CHARACTERS_PER_ROW - 5

/-- `LIMIT_LEN_TITLE = CHARACTERS_PER_ROW // 4`. -/
def LIMIT_LEN_TITLE : Nat := COPYPASTA_LIST_CHARACTERS_PER_ROW / 4

/-- The `FORMAT` template: `"{sep}{id}{sep}{title}{sep}{content}{sep}{count}{sep}\n"`. -/
def rowFormat (sid st sc scnt : PyStr) : PyStr :=
  SEPARATOR ++ sid ++ SEPARATOR ++ st ++ SEPARATOR ++ sc ++ SEPARATOR ++ scnt
    ++ SEPARATOR ++ "\n".data

/-- Largest id in the row set (`max(copypasta_list, key=lambda l: l[0])[0]`). -/
def maxIdOf (l : List Copypasta) : Nat := l.foldl (fun acc cp => max acc cp.id) 0

/-- Largest title length in the row set. -/
def maxTitleLenOf (l : List Copypasta) : Nat :=
  l.foldl (fun acc cp => max acc cp.title.length) 0

/-- Largest usage count in the row set. -/
def maxCountOf (l : List Copypasta) : Nat := l.foldl (fun acc cp => max acc cp.count) 0

/-- Largest content length in the row set. -/
def maxContentLenOf (l : List Copypasta) : Nat :=
  l.foldl (fun acc cp => max acc cp.content.length) 0

/-- `max_len_id` of `format_copypasta_list`. -/
def max_len_id (HI : PyStr) (l : List Copypasta) : Nat :=
  max HI.length (pyStrNat (maxIdOf l)).length

/-- `max_len_title` of `format_copypasta_list`. -/
def max_len_title (HT : PyStr) (l : List Copypasta) : Nat :=
  max HT.length (min LIMIT_LEN_TITLE (maxTitleLenOf l))

/-- `max_len_count` of `format_copypasta_list`. -/
def max_len_count (HN : PyStr) (l : List Copypasta) : Nat :=
  max HN.length (pyStrNat (maxCountOf l)).length

/-- The content-column budget `LIMIT_LEN_LINE - max_len_id - max_len_title -
max_len_count` (an integer: it can be negative). -/
def remainingBudget (HI HT HN : PyStr) (l : List Copypasta) : Int :=
  (LIMIT_LEN_LINE : Int) - max_len_id HI l - max_len_title HT l - max_len_count HN l

/-- `max_len_content` of `format_copypasta_list`. -/
def max_len_content (HI HT HC HN : PyStr) (l : List Copypasta) : Nat :=
  (max (HC.length : Int)
    (min (remainingBudget HI HT HN l) (maxContentLenOf l : Int))).toNat

/-- The id cell: `str(id_).rjust(max_len_id)`. -/
def section_id (w : Nat) (cp : Copypasta) : PyStr := pyRJust (pyStrNat cp.id) w

/-- The title cell: left-justified, or plainly truncated with the elision glyph. -/
def section_title (w : Nat) (t : PyStr) : PyStr :=
  if t.length ≤ w then pyLJust t w
  else pySliceTo t ((w : Int) - (PADDING_LEN : Int)) ++ PADDING

/-- The count cell: `str(count).ljust(max_len_count)`. -/
def section_count (w : Nat) (cp : Copypasta) : PyStr := pyLJust (pyStrNat cp.count) w

/-- The content cell when the emphasis is absent: identity or plain truncation. -/
def section_content_plain (w : Nat) (content : PyStr) : PyStr :=
  if content.length ≤ w then content
  else pySliceTo content ((w : Int) - (PADDING_LEN : Int)) ++ PADDING

/-- The two surplus-budget transfers of the emphasis window selection
(`format_copypasta_list` lines 271-279), acting on the pair of side
budgets given the lengths of the text available on each side. -/
def spacesFinal (ls0 rs0 L R : Int) : Int × Int :=
  let ls1 := if L < ls0 then ls0 - (ls0 - L) else ls0
  let rs1 := if L < ls0 then rs0 + (ls0 - L) else rs0
  let ls2 := if R < rs1 then ls1 + (rs1 - R) else ls1
  let rs2 := if R < rs1 then rs1 - (rs1 - R) else rs1
  (ls2, rs2)

/-- The cell before the overlays (`format_copypasta_list` lines 282-285):
the selected tail of the left string, the matched region of the content,
and the selected head of the right string. -/
def emphSec0 (content : PyStr) (el idx a b : Int) : PyStr :=
  pySliceFrom (pySliceTo content idx) (((pySliceTo content idx).length : Int) - a)
    ++ pySlice content idx (idx + el)
    ++ pySliceTo (pySliceFrom content (idx + el)) b

/-- The elision overlays (`format_copypasta_list` lines 286-291): replace
the outermost `PADDING_LEN` characters on each truncated side. -/
def emphOverlay (padL padR : Bool) (sec0 : PyStr) : PyStr :=
  let sec1 := if padL then PADDING ++ pySliceFrom sec0 (PADDING_LEN : Int) else sec0
  if padR then pySliceTo sec1 ((sec1.length : Int) - (PADDING_LEN : Int)) ++ PADDING
  else sec1

/-- Composition of the emphasized content cell (`format_copypasta_list`
lines 249-291) from the committed width, the content, the original
emphasis length `el` and the match index `idx`: budget split, surplus
transfers, window slices, then the elision overlays. -/
def emphCompose (w : Nat) (content : PyStr) (el idx : Int) : PyStr :=
  let sp := divide_in_pairs ((w : Int) - el)
  let lstr := pySliceTo content idx
  let rstr := pySliceFrom content (idx + el)
  let fin := spacesFinal sp.1 sp.2 lstr.length rstr.length
  emphOverlay (decide (sp.1 < (lstr.length : Int))) (decide (sp.2 < (rstr.length : Int)))
    (emphSec0 content el idx fin.1 fin.2)

/-- The content cell when the emphasis occurs in the (newline-stripped)
content: clip the emphasis if it reaches the committed width, locate the
first case-insensitive occurrence, then compose the window.  Also returns
the (possibly clipped) emphasis, whose reassignment persists across loop
iterations. -/
def section_content_emph (w : Nat) (content e : PyStr) : PyStr × PyStr :=
  let e2 := if (w : Int) ≤ (e.length : Int) then pySliceTo e (w : Int) else e
  let idx : Int :=
    match pyFind (pyUpper content) (pyUpper e2) with
    | some k => (k : Int)
    | none => -1
  (emphCompose w content e.length idx, e2)

/-- Render one row of the copypasta table (one loop iteration of
`format_copypasta_list`), returning the row line and the possibly
updated emphasis. -/
def renderRow (wid wt wc wn : Nat) (e : PyStr) (cp : Copypasta) : PyStr × PyStr :=
  let content := cp.content.filter (fun ch => ch ≠ '\n')
  let res :=
    if e ≠ [] ∧ pyContains (pyUpper content) (pyUpper e) then
      section_content_emph wc content e
    else (section_content_plain wc content, e)
  (rowFormat (section_id wid cp) (section_title wt cp.title) (pyLJust res.1 wc)
    (section_count wn cp), res.2)

/-- The heading line of the table: each heading centered in its column. -/
def headerLine (HI HT HC HN : PyStr) (wid wt wc wn : Nat) : PyStr :=
  rowFormat (pyCenter HI wid) (pyCenter HT wt) (pyCenter HC wc) (pyCenter HN wn)

/-- The sequence of rendered row lines (with the emphasis threaded through
the iterations, since its clipping persists). -/
def renderRowsGo (wid wt wc wn : Nat) : PyStr → List Copypasta → List PyStr
  | _, [] => []
  | e, cp :: rest =>
    let pr := renderRow wid wt wc wn e cp
    pr.1 :: renderRowsGo wid wt wc wn pr.2 rest

/-- The accumulation loop of `format_copypasta_list` (lines 225-327):
append each rendered row to the current table; if the table could not
accommodate one further row, close it and open a bare fence; else if the
row equals the last list element, close the table without resetting it. -/
def accumGo (lastCp : Copypasta) (wid wt wc wn : Nat) :
    List Copypasta → PyStr → PyStr → List PyStr → List PyStr
  | [], _, _, acc => acc
  | cp :: rest, table, e, acc =>
    let pr := renderRow wid wt wc wn e cp
    let t2 := table ++ pr.1
    if DISCORD_CHARACTER_LIMIT < t2.length + COPYPASTA_LIST_CHARACTERS_PER_ROW + 3 then
      accumGo lastCp wid wt wc wn rest FENCE pr.2 (acc ++ [t2 ++ FENCE])
    else if cp = lastCp then
      accumGo lastCp wid wt wc wn rest (t2 ++ FENCE) pr.2 (acc ++ [t2 ++ FENCE])
    else
      accumGo lastCp wid wt wc wn rest t2 pr.2 acc

/-- `format_copypasta_list` of `cogs/entertainment.py`: width allocation,
heading line, then the accumulation loop.  The four headings are the
localized strings; the emphasis argument uses `[]` for Python's `None`. -/
def format_copypasta_list (HI HT HC HN : PyStr) (l : List Copypasta) (e : PyStr) :
    List PyStr :=
  let wid := max_len_id HI l
  let wt := max_len_title HT l
  let wc := max_len_content HI HT HC HN l
  let wn := max_len_count HN l
  accumGo (l.getLastD ⟨0, [], [], 0⟩) wid wt wc wn l
    (FENCE ++ headerLine HI HT HC HN wid wt wc wn) e []

/-- The accumulation loop on precomputed lines: identical control flow to
`accumGo`, with the value-equality test against the last list element
replaced by an emptiness test on the remaining lines (the two agree when
no earlier row equals the last row). -/
def chunkGo : List PyStr → PyStr → List PyStr → List PyStr
  | [], _, acc => acc
  | ln :: rest, table, acc =>
    let t2 := table ++ ln
    if DISCORD_CHARACTER_LIMIT < t2.length + COPYPASTA_LIST_CHARACTERS_PER_ROW + 3 then
      chunkGo rest FENCE (acc ++ [t2 ++ FENCE])
    else if rest = [] then
      chunkGo rest (t2 ++ FENCE) (acc ++ [t2 ++ FENCE])
    else chunkGo rest t2 acc

/-- One escaped character of Python's `json.dumps` with `ensure_ascii=False`. -/
def jsonEscapeChar (c : Char) : PyStr :=
  if c = '"' then ['\\', '"']
  else if c = '\\' then ['\\', '\\']
  else if c = '\n' then ['\\', 'n']
  else if c = '\t' then ['\\', 't']
  else if c = '\r' then ['\\', 'r']
  else if c = Char.ofNat 8 then ['\\', 'b']
  else if c = Char.ofNat 12 then ['\\', 'f']
  else if c.toNat < 32 then
    ['\\', 'u', '0', '0', Nat.digitChar (c.toNat / 16), Nat.digitChar (c.toNat % 16)]
  else [c]

/-- A JSON string literal for a Python string. -/
def jsonQuote (s : PyStr) : PyStr := '"' :: (s.map jsonEscapeChar).flatten ++ ['"']

/-- Opening brace character (written by code point). -/
def braceOpen : Char := Char.ofNat 123

/-- Closing brace character (written by code point). -/
def braceClose : Char := Char.ofNat 125

/-- `json.dumps` of one copypasta dict (keys id, title, content, count, in
insertion order) with `indent=COPYPASTA_JSON_INDENT_AMOUNT`, rendered at
enclosing indentation `ind`. -/
def dumpsRecordAt (ind : Nat) (cp : Copypasta) : PyStr :=
  let pad := List.replicate ind ' '
  let pad2 := List.replicate (ind + COPYPASTA_JSON_INDENT_AMOUNT) ' '
  [braceOpen, '\n'] ++ pad2 ++ "\"id\": ".data ++ pyStrNat cp.id
    ++ [',', '\n'] ++ pad2 ++ "\"title\": ".data ++ jsonQuote cp.title
    ++ [',', '\n'] ++ pad2 ++ "\"content\": ".data ++ jsonQuote cp.content
    ++ [',', '\n'] ++ pad2 ++ "\"count\": ".data ++ pyStrNat cp.count
    ++ ['\n'] ++ pad ++ [braceClose]

/-- Tail of a serialized record list: `",\n  "` before each further element. -/
def dumpsListTail : List Copypasta → PyStr
  | [] => []
  | cp :: rest => ",\n  ".data ++ dumpsRecordAt 2 cp ++ dumpsListTail rest

/-- `json.dumps` of a list of copypasta dicts with `indent=2`. -/
def dumpsListRecords : List Copypasta → PyStr
  | [] => "[]".data
  | cp :: rest => "[\n  ".data ++ dumpsRecordAt 2 cp ++ dumpsListTail rest ++ "\n]".data

/-- UTF-8 byte length of a Python string (the `io.BytesIO(...).nbytes` of
the source). -/
def utf8Len (s : PyStr) : Nat := (s.map Char.utf8Size).sum

/-- `MAX_FILE_SIZE` of `copypasta_export_json`: the Discord file byte limit
minus a 65536-byte safety margin. -/
def MAX_FILE_SIZE : Nat := DISCORD_FILE_BYTE_LIMIT - 65536

/-- Serialized byte size of one record alone. -/
def soloSize (cp : Copypasta) : Nat := utf8Len (dumpsRecordAt 0 cp)

/-- Serialized byte size of the running record list. -/
def withinSize (l : List Copypasta) : Nat := utf8Len (dumpsListRecords l)

/-- The loop of `copypasta_export_json` (lines 937-961): emit the running
list when the next record would overflow, silently skip a record whose
solo size exceeds the ceiling, and emit the running list at the record
equal to the last list element. -/
def exportGo (lastCp : Copypasta) :
    List Copypasta → Nat → List Copypasta → List (List Copypasta) →
      List (List Copypasta)
  | [], _, _, lists => lists
  | cp :: rest, cur, within, lists =>
    let size := soloSize cp
    let emit : Bool := decide (MAX_FILE_SIZE < cur + size ∧ within ≠ [])
    let within1 := if emit then [] else within
    let lists1 := if emit then lists ++ [within] else lists
    if MAX_FILE_SIZE < size then exportGo lastCp rest cur within1 lists1
    else
      let within2 := within1 ++ [cp]
      let lists2 := if cp = lastCp then lists1 ++ [within2] else lists1
      exportGo lastCp rest (withinSize within2) within2 lists2

/-- The chunks of `copypasta_export_json` as record lists (`copypasta_lists`
in the source), before each is serialized into its buffer. -/
def exportChunks (l : List Copypasta) : List (List Copypasta) :=
  exportGo (l.getLastD ⟨0, [], [], 0⟩) l 0 [] []

/-- `copypasta_export_json` of `functions.py`: one serialized buffer per
chunk, and nothing else is returned. -/
def copypasta_export_json (l : List Copypasta) : List PyStr :=
  (exportChunks l).map dumpsListRecords

/-- `gen_char_amount` of `functions.py`: `max(1, choice)` where the weighted
choice picks among `i-2, i-1, i, i+1, i+2`; the pick index determinizes
the random source. -/
def gen_char_amount (i : Nat) (pick : Fin 5) : Nat :=
  (max 1 ((i : Int) + pick.val - 2)).toNat

/-- Number of uppercase characters across a list of strings. -/
def upperCountOf (strings : List PyStr) : Nat :=
  (strings.map (fun s => (s.filter Char.isUpper).length)).sum

/-- Total number of characters across a list of strings
(`len("".join(strings))`). -/
def joinedLen (strings : List PyStr) : Nat := (strings.map List.length).sum

/-- The `uppercase_chance` ratio computed by `gen_char_string`; its
denominator is `joinedLen strings`. -/
def uppercase_chance (strings : List PyStr) : Rat :=
  (upperCountOf strings : Rat) / (joinedLen strings : Rat)

/-- `gen_char_string` of `functions.py`: emit `sum(gen_char_amount(s)) //
len(strings)` characters, each the upper or lower case of the substitution
letter according to the case oracle. -/
def gen_char_string (strings : List PyStr) (sub : Char) (amts : List (Fin 5))
    (cse : Nat → Bool) : PyStr :=
  let n := ((strings.zip amts).map (fun sa => gen_char_amount sa.1.length sa.2)).sum
    / strings.length
  (List.range n).map (fun j => if cse j then sub.toUpper else sub.toLower)

/-- `gen_punctuation_string` of `functions.py`: emit `gen_char_amount(s)`
characters drawn by the punctuation oracle. -/
def gen_punctuation_string (s : PyStr) (amt : Fin 5) (pick : Nat → Char) : PyStr :=
  (List.range (gen_char_amount s.length amt)).map pick

/-- `marco_polo` of `functions.py`, with the regex captures `m a r c o
punctuation` as inputs and the random source determinized by oracles:
`amtPick` for each weighted length choice, `casePick` for each emitted
letter's case, `punctPick` for each emitted punctuation character. -/
def marco_polo (m a r c o p : PyStr) (amtPick : Nat → Fin 5)
    (casePick : Nat → Nat → Bool) (punctPick : Nat → Char) : PyStr :=
  gen_char_string [m] 'P' [amtPick 0] (casePick 0)
    ++ gen_char_string [a] 'O' [amtPick 1] (casePick 1)
    ++ gen_char_string [r, c] 'L' [amtPick 2, amtPick 3] (casePick 2)
    ++ gen_char_string [o] 'O' [amtPick 4] (casePick 3)
    ++ (if p ≠ [] then gen_punctuation_string p (amtPick 5) punctPick else [])

/-- A nonempty run of one letter, case-insensitively (a `x+` capture of the
`MARCO` regex). -/
def isMarcoRun (ch : Char) (s : PyStr) : Prop :=
  s ≠ [] ∧ ∀ x ∈ s, x.toLower = ch

/-- An ASCII word character (`\w`). -/
def isWordChar (c : Char) : Prop :=
  ('a' ≤ c.toLower ∧ c.toLower ≤ 'z') ∨ ('0' ≤ c ∧ c ≤ '9') ∨ c = '_'

/-- Full match of the `MARCO` regex of `regexes.py`: five nonempty letter
runs `m+ a+ r+ c+ o+` followed by a possibly empty run of non-word
characters. -/
def MARCO_match (s m a r c o p : PyStr) : Prop :=
  s = m ++ a ++ r ++ c ++ o ++ p ∧ isMarcoRun 'm' m ∧ isMarcoRun 'a' a ∧
    isMarcoRun 'r' r ∧ isMarcoRun 'c' c ∧ isMarcoRun 'o' o ∧ ∀ x ∈ p, ¬ isWordChar x

/-- Modelled from the spec: Python's `round()` (round half to even) on the
fraction `num / den`, used to state the spec's `round(average(...))`
formula for comparison with the code's floor division. -/
def specRoundHalfEven (num den : Nat) : Nat :=
  let q := num / den
  let r := num % den
  if 2 * r < den then q else if den < 2 * r then q + 1
  else if q % 2 = 0 then q else q + 1

/-! Concrete inputs at which the claims are checked. -/

/-- A heading far wider than one row allotment. -/
def c1HI : PyStr := List.replicate 1000 'I'

/-- A minimal row. -/
def c1cp : Copypasta := ⟨1, "t".data, "c".data, 0⟩

/-- The one-row list rendered under the oversized heading. -/
def c1L : List Copypasta := [c1cp]

/-- A small row list rendered with ordinary headings. -/
def c1wL : List Copypasta := [⟨1, "t".data, "hello".data, 0⟩]

/-- A row whose content holds the emphasis in a different letter case. -/
def c2L : List Copypasta := [⟨1, "t".data, "xABc".data, 0⟩]

/-- A row repeated twice, value-equal to the last list element. -/
def c3cp : Copypasta := ⟨1, "t".data, "c".data, 0⟩

/-- A list with a duplicated row. -/
def c3L : List Copypasta := [c3cp, c3cp]

/-- A duplicate-free two-row list. -/
def c3wL : List Copypasta := [⟨1, "t".data, "x".data, 0⟩, ⟨2, "u".data, "y".data, 3⟩]

/-- A row whose content fills the committed content width exactly. -/
def c4cp : Copypasta := ⟨1, "t".data, List.replicate 76 'a', 0⟩

/-- The one-row list whose emphasis equals the full content. -/
def c4L : List Copypasta := [c4cp]

/-- A small row list with a short emphasis-free render. -/
def c4wL : List Copypasta := [⟨1, "t".data, "hello".data, 0⟩]

/-- Two small records, each fitting the export ceiling alone. -/
def c5L : List Copypasta := [⟨1, "a".data, "x".data, 0⟩, ⟨2, "b".data, "y".data, 1⟩]

/-- A record whose content alone is wider than the export byte ceiling. -/
def c6big : Copypasta := ⟨1, "t".data, List.replicate 8323073 'z', 0⟩

/-- A content heading wide enough that two rows fill most of a block. -/
def c7HC : PyStr := List.replicate 630 'C'

/-- First row of the two-block render. -/
def c7cp1 : Copypasta := ⟨1, "t".data, "c1".data, 0⟩

/-- Second row of the two-block render. -/
def c7cp2 : Copypasta := ⟨2, "t".data, "c2".data, 0⟩

/-- Third row of the two-block render. -/
def c7cp3 : Copypasta := ⟨3, "t".data, "c3".data, 0⟩

/-- Fourth row of the two-block render. -/
def c7cp4 : Copypasta := ⟨4, "t".data, "c4".data, 0⟩

/-- Four rows whose render closes one block and opens a second. -/
def c7L : List Copypasta := [c7cp1, c7cp2, c7cp3, c7cp4]

/-- A one-row list rendered inside a single block. -/
def c7wL : List Copypasta := [⟨1, "t".data, "hi".data, 2⟩]

/-- A title heading consuming the whole row allotment. -/
def c8HT : PyStr := List.replicate 80 'T'

/-- The row list rendered under the oversized title heading. -/
def c8L : List Copypasta := [⟨1, "t".data, "c".data, 0⟩]

/-! Basic lemmas about the Python string primitives. -/

theorem pyLJust_length_of_le {s : PyStr} {w : Nat} (h : s.length ≤ w) :
    (pyLJust s w).length = w := by
  simp [pyLJust]
  omega

theorem pyRJust_length_of_le {s : PyStr} {w : Nat} (h : s.length ≤ w) :
    (pyRJust s w).length = w := by
  simp [pyRJust]
  omega

theorem pyCenter_length_of_le {s : PyStr} {w : Nat} (h : s.length ≤ w) :
    (pyCenter s w).length = w := by
  unfold pyCenter
  by_cases hw : w ≤ s.length
  · simp [hw]
    omega
  · simp [hw]
    have hm : w - s.length ≥ 1 := by omega
    have : (w - s.length) / 2 + (w - s.length &&& w &&& 1) ≤ w - s.length := by
      have h1 : (w - s.length) &&& w &&& 1 ≤ 1 := Nat.and_le_right
      have h2 : (w - s.length) / 2 + 1 ≤ w - s.length := by omega
      omega
    omega

theorem pyIdx_le (len : Nat) (i : Int) : pyIdx len i ≤ len := by
  unfold pyIdx
  by_cases h : i < 0
  · simp [h]
    omega
  · simp [h]

theorem pyIdx_of_nonneg_le {len : Nat} {i : Int} (h0 : 0 ≤ i) (h1 : i ≤ (len : Int)) :
    (pyIdx len i : Int) = i := by
  unfold pyIdx
  have : ¬ i < 0 := by omega
  simp [this]
  omega

theorem pySliceFrom_length (s : PyStr) (i : Int) :
    (pySliceFrom s i).length = s.length - pyIdx s.length i := by
  simp [pySliceFrom]

theorem pySliceTo_length (s : PyStr) (j : Int) :
    (pySliceTo s j).length = pyIdx s.length j := by
  simp [pySliceTo, List.length_take]
  exact pyIdx_le s.length j

theorem length_le_of_take_eq {l m : List Char} {n : Nat} (h : l.take n = m) :
    m.length ≤ l.length := by
  have := congrArg List.length h
  simp [List.length_take, Nat.min_def] at this
  split_ifs at this <;> omega

theorem pyUpper_length (s : PyStr) : (pyUpper s).length = s.length := by
  simp [pyUpper]

/-! Lemmas about substring search. -/

theorem pyFindAux_some_spec {needle : PyStr} :
    ∀ (hay : PyStr) (k j : Nat), pyFindAux needle hay k = some j →
      ∃ d, j = k + d ∧ d + needle.length ≤ hay.length ∧
        (hay.drop d).take needle.length = needle := by
  intro hay
  induction hay with
  | nil =>
    intro k j h
    by_cases hn : needle = ([] : PyStr)
    · refine ⟨0, ?_, ?_, ?_⟩ <;> simp_all [pyFindAux]
    · simp [pyFindAux, hn] at h
  | cons c rest ih =>
    intro k j h
    unfold pyFindAux at h
    by_cases ht : (c :: rest).take needle.length = needle
    · simp [ht] at h
      refine ⟨0, by omega, ?_, by simpa using ht⟩
      have := length_le_of_take_eq ht
      omega
    · simp [ht] at h
      obtain ⟨d, hd, hlen, htake⟩ := ih (k + 1) j h
      exact ⟨d + 1, by omega, by simp; omega, by simpa using htake⟩

theorem pyFind_some_spec {hay needle : PyStr} {j : Nat}
    (h : pyFind hay needle = some j) :
    j + needle.length ≤ hay.length ∧ (hay.drop j).take needle.length = needle := by
  obtain ⟨d, hd, hlen, htake⟩ := pyFindAux_some_spec hay 0 j h
  subst hd
  simpa using ⟨by omega, htake⟩

theorem pyFindAux_isSome_append (needle y : PyStr) :
    ∀ (x : PyStr) (k : Nat), (pyFindAux needle (x ++ needle ++ y) k).isSome = true := by
  intro x
  induction x with
  | nil =>
    intro k
    simp only [List.nil_append]
    cases hny : needle ++ y with
    | nil =>
      have : needle = ([] : PyStr) := by
        rcases List.append_eq_nil.mp hny with ⟨h1, _⟩
        exact h1
      simp [pyFindAux, this]
    | cons a t =>
      have ht : (a :: t).take needle.length = needle := by
        rw [← hny]
        exact List.take_left needle y
      simp only [pyFindAux]
      simp [ht]
  | cons a x' ih =>
    intro k
    simp only [List.cons_append, pyFindAux]
    split
    · simp
    · simpa [List.append_assoc] using ih (k + 1)

theorem pyContains_of_append {hay x needle y : PyStr} (h : hay = x ++ needle ++ y) :
    pyContains hay needle = true := by
  subst h
  simpa [pyContains, pyFind] using pyFindAux_isSome_append needle y x 0

/-! Lemmas about the decimal rendering of naturals. -/

theorem pyStrNatAux_eq_digits :
    ∀ (fuel n : Nat), n ≤ fuel →
      pyStrNatAux fuel n = ((Nat.digits 10 n).map Nat.digitChar).reverse := by
  intro fuel
  induction fuel with
  | zero =>
    intro n h
    have : n = 0 := by omega
    subst this
    simp [pyStrNatAux]
  | succ f ih =>
    intro n h
    by_cases hn : n = 0
    · subst hn
      simp [pyStrNatAux]
    · have h10 : (2 : Nat) ≤ 10 := by omega
      rw [Nat.digits_def' (by omega : 1 < 10) (by omega : 0 < n)]
      have hdiv : n / 10 ≤ f := by
        have : n / 10 < n := Nat.div_lt_self (by omega) (by omega)
        omega
      simp [pyStrNatAux, hn, ih (n / 10) hdiv]

theorem pyStrNat_length_eq (n : Nat) :
    (pyStrNat n).length = if n = 0 then 1 else (Nat.digits 10 n).length := by
  by_cases hn : n = 0
  · simp [pyStrNat, hn]
  · simp [pyStrNat, hn, pyStrNatAux_eq_digits n n le_rfl]

theorem pyStrNat_length_mono {a b : Nat} (h : a ≤ b) :
    (pyStrNat a).length ≤ (pyStrNat b).length := by
  rw [pyStrNat_length_eq, pyStrNat_length_eq]
  by_cases ha : a = 0
  · by_cases hb : b = 0
    · simp [ha, hb]
    · simp [ha, hb]
      have : Nat.digits 10 b ≠ [] := Nat.digits_ne_nil_iff_ne_zero.mpr hb
      have := List.length_pos.mpr this
      omega
  · have hb : b ≠ 0 := by omega
    simp [ha, hb]
    exact Nat.le_digits_len_le 10 a b h

/-! Lemmas about the fold-computed maxima of the width allocator. -/

theorem foldl_max_le_arg (f : Copypasta → Nat) :
    ∀ (l : List Copypasta) (a : Nat) (cp : Copypasta), cp ∈ l →
      f cp ≤ l.foldl (fun acc x => max acc (f x)) a := by
  intro l
  induction l with
  | nil => intro a cp h; simp at h
  | cons x rest ih =>
    intro a cp h
    rcases List.mem_cons.mp h with h1 | h1
    · subst h1
      have hbase : ∀ (t : List Copypasta) (b : Nat),
          b ≤ t.foldl (fun acc x => max acc (f x)) b := by
        intro t
        induction t with
        | nil => simp
        | cons z t iht =>
          intro b
          simp only [List.foldl_cons]
          exact le_trans (Nat.le_max_left b (f z)) (iht (max b (f z)))
      simp only [List.foldl_cons]
      exact le_trans (Nat.le_max_right a (f cp)) (hbase rest (max a (f cp)))
    · simp only [List.foldl_cons]
      exact ih _ cp h1

theorem id_le_maxIdOf {l : List Copypasta} {cp : Copypasta} (h : cp ∈ l) :
    cp.id ≤ maxIdOf l := foldl_max_le_arg (fun cp => cp.id) l 0 cp h

theorem count_le_maxCountOf {l : List Copypasta} {cp : Copypasta} (h : cp ∈ l) :
    cp.count ≤ maxCountOf l := foldl_max_le_arg (fun cp => cp.count) l 0 cp h

theorem title_le_maxTitleLenOf {l : List Copypasta} {cp : Copypasta} (h : cp ∈ l) :
    cp.title.length ≤ maxTitleLenOf l :=
  foldl_max_le_arg (fun cp => cp.title.length) l 0 cp h

theorem content_le_maxContentLenOf {l : List Copypasta} {cp : Copypasta} (h : cp ∈ l) :
    cp.content.length ≤ maxContentLenOf l :=
  foldl_max_le_arg (fun cp => cp.content.length) l 0 cp h

/-! Lemmas about the emphasis window composition. -/

theorem PADDING_length : PADDING.length = 1 := rfl

theorem PADDING_LEN_eq : PADDING_LEN = 1 := rfl

theorem fdiv_two (a : Int) : a.fdiv 2 = a / 2 := Int.fdiv_eq_ediv a (by omega)

theorem pySlice_length (s : PyStr) (i j : Int) :
    (pySlice s i j).length = pyIdx s.length j - pyIdx s.length i := by
  simp [pySlice, List.length_drop, List.length_take]
  have := pyIdx_le s.length j
  omega

theorem divide_in_pairs_spec (n : Int) :
    (divide_in_pairs n).1 + (divide_in_pairs n).2 = n ∧
      (divide_in_pairs n).1 ≤ (divide_in_pairs n).2 ∧
      (divide_in_pairs n).2 ≤ (divide_in_pairs n).1 + 1 := by
  unfold divide_in_pairs
  split_ifs with h <;> dsimp only <;> rw [fdiv_two] <;>
    refine ⟨by omega, by omega, by omega⟩

theorem spacesFinal_spec (ls0 rs0 L R : Int) :
    spacesFinal ls0 rs0 L R =
      ((if R < (if L < ls0 then rs0 + (ls0 - L) else rs0) then
          (if L < ls0 then ls0 - (ls0 - L) else ls0) +
            ((if L < ls0 then rs0 + (ls0 - L) else rs0) - R)
        else (if L < ls0 then ls0 - (ls0 - L) else ls0)),
       (if R < (if L < ls0 then rs0 + (ls0 - L) else rs0) then
          (if L < ls0 then rs0 + (ls0 - L) else rs0) -
            ((if L < ls0 then rs0 + (ls0 - L) else rs0) - R)
        else (if L < ls0 then rs0 + (ls0 - L) else rs0))) := by
  rfl

theorem spacesFinal_facts {ls0 rs0 L R : Int} (h1 : 0 ≤ ls0) (h2 : 0 ≤ rs0)
    (hL : 0 ≤ L) (hR : 0 ≤ R) :
    0 ≤ (spacesFinal ls0 rs0 L R).1 ∧ 0 ≤ (spacesFinal ls0 rs0 L R).2 ∧
      (spacesFinal ls0 rs0 L R).1 + (spacesFinal ls0 rs0 L R).2 = ls0 + rs0 := by
  rw [spacesFinal_spec]
  split_ifs <;> dsimp only <;> refine ⟨by omega, by omega, by omega⟩

theorem emphSec0_length_le {content : PyStr} {el k a b : Int} (hel : 0 ≤ el)
    (hk : 0 ≤ k) (hke : k + el ≤ (content.length : Int)) (ha : 0 ≤ a) (hb : 0 ≤ b) :
    ((emphSec0 content el k a b).length : Int) ≤ a + el + b := by
  simp only [emphSec0, List.length_append, pySliceFrom_length, pySliceTo_length,
    pySlice_length, pyIdx]
  split_ifs <;> omega

theorem emphSec0_length_ge {content : PyStr} {el k a b : Int} (hel : 0 ≤ el)
    (hk : 0 ≤ k) (hke : k + el ≤ (content.length : Int)) :
    el ≤ ((emphSec0 content el k a b).length : Int) := by
  simp only [emphSec0, List.length_append, pySliceFrom_length, pySliceTo_length,
    pySlice_length, pyIdx]
  split_ifs <;> omega

theorem emphOverlay_length {pl pr : Bool} {s : PyStr} (h : 1 ≤ s.length) :
    (emphOverlay pl pr s).length = s.length := by
  unfold emphOverlay
  cases pl <;> cases pr <;>
    simp only [Bool.false_eq_true, if_false, if_true, List.length_append,
      pySliceFrom_length, pySliceTo_length, PADDING_length, PADDING_LEN_eq, pyIdx] <;>
    split_ifs <;> omega

theorem emphCompose_length_le {w : Nat} {content : PyStr} {el k : Int}
    (hel : 1 ≤ el) (helw : el ≤ (w : Int)) (hk : 0 ≤ k)
    (hke : k + el ≤ (content.length : Int)) :
    (emphCompose w content el k).length ≤ w := by
  obtain ⟨hdsum, hdle, hdle2⟩ := divide_in_pairs_spec ((w : Int) - el)
  have hls0 : 0 ≤ (divide_in_pairs ((w : Int) - el)).1 := by omega
  have hrs0 : 0 ≤ (divide_in_pairs ((w : Int) - el)).2 := by omega
  have hL : ((pySliceTo content k).length : Int) = k := by
    rw [pySliceTo_length]
    unfold pyIdx
    split_ifs <;> omega
  have hR : ((pySliceFrom content (k + el)).length : Int) =
      (content.length : Int) - k - el := by
    rw [pySliceFrom_length]
    unfold pyIdx
    split_ifs <;> omega
  obtain ⟨hfa, hfb, hfsum⟩ := spacesFinal_facts (L := ((pySliceTo content k).length : Int))
    (R := ((pySliceFrom content (k + el)).length : Int)) hls0 hrs0 (by omega) (by omega)
  have hge := emphSec0_length_ge
    (a := (spacesFinal (divide_in_pairs ((w : Int) - el)).1
      (divide_in_pairs ((w : Int) - el)).2 ((pySliceTo content k).length : Int)
      ((pySliceFrom content (k + el)).length : Int)).1)
    (b := (spacesFinal (divide_in_pairs ((w : Int) - el)).1
      (divide_in_pairs ((w : Int) - el)).2 ((pySliceTo content k).length : Int)
      ((pySliceFrom content (k + el)).length : Int)).2)
    (by omega : (0 : Int) ≤ el) hk hke
  have hle := emphSec0_length_le
    (a := (spacesFinal (divide_in_pairs ((w : Int) - el)).1
      (divide_in_pairs ((w : Int) - el)).2 ((pySliceTo content k).length : Int)
      ((pySliceFrom content (k + el)).length : Int)).1)
    (b := (spacesFinal (divide_in_pairs ((w : Int) - el)).1
      (divide_in_pairs ((w : Int) - el)).2 ((pySliceTo content k).length : Int)
      ((pySliceFrom content (k + el)).length : Int)).2)
    (by omega : (0 : Int) ≤ el) hk hke hfa hfb
  show (emphOverlay _ _ (emphSec0 content el k _ _)).length ≤ w
  rw [emphOverlay_length (by omega)]
  omega

theorem emphClip_eq {w : Nat} {e : PyStr} (h : e.length ≤ w) :
    (if (w : Int) ≤ (e.length : Int) then pySliceTo e (w : Int) else e) = e := by
  split_ifs with hc
  · have hew : e.length = w := by omega
    have hidx : pyIdx e.length (w : Int) = e.length := by
      unfold pyIdx
      split_ifs <;> omega
    simp [pySliceTo, hidx]
  · rfl

theorem section_content_emph_fst_length {w : Nat} {content e : PyStr}
    (hne : e ≠ []) (hlen : e.length ≤ w)
    (hfound : pyContains (pyUpper content) (pyUpper e) = true) :
    (section_content_emph w content e).1.length ≤ w := by
  obtain ⟨k, hk⟩ := Option.isSome_iff_exists.mp hfound
  have hspec := pyFind_some_spec hk
  rw [pyUpper_length, pyUpper_length] at hspec
  have hel : 1 ≤ e.length := List.length_pos.mpr hne
  simp only [section_content_emph, emphClip_eq hlen, hk]
  exact emphCompose_length_le (by exact_mod_cast hel) (by exact_mod_cast hlen)
    (by omega) (by exact_mod_cast hspec.1)

theorem section_content_plain_length_le {w : Nat} {content : PyStr}
    (h : content.length ≤ w ∨ 1 ≤ w) :
    (section_content_plain w content).length ≤ w := by
  unfold section_content_plain
  split_ifs with hc
  · exact hc
  · have hw : 1 ≤ w := by omega
    simp only [List.length_append, pySliceTo_length, PADDING_length, PADDING_LEN_eq, pyIdx]
    split_ifs <;> omega

theorem section_title_length {w : Nat} {t : PyStr} (h : t.length ≤ w ∨ 1 ≤ w) :
    (section_title w t).length = w := by
  unfold section_title
  split_ifs with hc
  · exact pyLJust_length_of_le hc
  · have hw : 1 ≤ w := by omega
    simp only [List.length_append, pySliceTo_length, PADDING_length, PADDING_LEN_eq, pyIdx]
    split_ifs <;> omega

theorem rowFormat_length (a b c d : PyStr) :
    (rowFormat a b c d).length = a.length + b.length + c.length + d.length + 6 := by
  simp [rowFormat, SEPARATOR, List.length_append]
  omega

theorem renderRow_fst_length {wid wt wc wn : Nat} {e : PyStr} {cp : Copypasta}
    (hid : (pyStrNat cp.id).length ≤ wid)
    (hcnt : (pyStrNat cp.count).length ≤ wn)
    (ht : cp.title.length ≤ wt ∨ 1 ≤ wt)
    (hc : (cp.content.filter (fun ch => ch ≠ '\n')).length ≤ wc ∨ 1 ≤ wc)
    (he : e = [] ∨ e.length ≤ wc) :
    (renderRow wid wt wc wn e cp).1.length = wid + wt + wc + wn + 6 := by
  unfold renderRow
  simp only [rowFormat_length, section_id, section_count]
  rw [pyRJust_length_of_le hid, pyLJust_length_of_le hcnt, section_title_length ht]
  have hcell : (if e ≠ [] ∧ pyContains (pyUpper (cp.content.filter (fun ch => ch ≠ '\n')))
      (pyUpper e) = true then
        section_content_emph wc (cp.content.filter (fun ch => ch ≠ '\n')) e
      else (section_content_plain wc (cp.content.filter (fun ch => ch ≠ '\n')), e)).1.length
      ≤ wc := by
    split_ifs with hg
    · rcases he with he | he
      · exact absurd he hg.1
      · exact section_content_emph_fst_length hg.1 he hg.2
    · exact section_content_plain_length_le hc
  rw [pyLJust_length_of_le hcell]

theorem renderRow_snd_eq {wid wt wc wn : Nat} {e : PyStr} {cp : Copypasta}
    (he : e = [] ∨ e.length ≤ wc) :
    (renderRow wid wt wc wn e cp).2 = e := by
  unfold renderRow
  dsimp only
  split_ifs with hg
  · rcases he with he | he
    · exact absurd he hg.1
    · simp only [section_content_emph]
      exact emphClip_eq he
  · rfl

theorem renderRowsGo_grid {wid wt wc wn : Nat} :
    ∀ (l : List Copypasta) (e : PyStr),
      (∀ cp ∈ l, (pyStrNat cp.id).length ≤ wid) →
      (∀ cp ∈ l, (pyStrNat cp.count).length ≤ wn) →
      (∀ cp ∈ l, cp.title.length ≤ wt ∨ 1 ≤ wt) →
      (∀ cp ∈ l, (cp.content.filter (fun ch => ch ≠ '\n')).length ≤ wc ∨ 1 ≤ wc) →
      (e = [] ∨ e.length ≤ wc) →
      ∀ line ∈ renderRowsGo wid wt wc wn e l,
        line.length = wid + wt + wc + wn + 6 := by
  intro l
  induction l with
  | nil => intro e _ _ _ _ _ line hline; simp [renderRowsGo] at hline
  | cons cp rest ih =>
    intro e hid hcnt ht hc he line hline
    rw [renderRowsGo] at hline
    rcases List.mem_cons.mp hline with h1 | h1
    · subst h1
      exact renderRow_fst_length (hid cp (by simp)) (hcnt cp (by simp))
        (ht cp (by simp)) (hc cp (by simp)) he
    · rw [renderRow_snd_eq he] at h1
      exact ih e (fun x hx => hid x (by simp [hx])) (fun x hx => hcnt x (by simp [hx]))
        (fun x hx => ht x (by simp [hx])) (fun x hx => hc x (by simp [hx])) he line h1

/-! Lemmas about the accumulation loop. -/

theorem FENCE_length : FENCE.length = 3 := rfl

theorem renderRowsGo_length (wid wt wc wn : Nat) :
    ∀ (l : List Copypasta) (e : PyStr),
      (renderRowsGo wid wt wc wn e l).length = l.length := by
  intro l
  induction l with
  | nil => intro e; rfl
  | cons cp rest ih => intro e; rw [renderRowsGo]; simp [ih]

theorem accumGo_eq_chunkGo {lastCp : Copypasta} {wid wt wc wn : Nat} :
    ∀ (rest : List Copypasta) (table e : PyStr) (acc : List PyStr),
      (∀ cp ∈ rest.dropLast, cp ≠ lastCp) →
      (rest ≠ [] → rest.getLastD lastCp = lastCp) →
      accumGo lastCp wid wt wc wn rest table e acc =
        chunkGo (renderRowsGo wid wt wc wn e rest) table acc := by
  intro rest
  induction rest with
  | nil => intro table e acc _ _; rfl
  | cons cp rest' ih =>
    intro table e acc hdrop hlast
    have hdrop' : ∀ x ∈ rest'.dropLast, x ≠ lastCp := by
      intro x hx
      apply hdrop
      cases rest' with
      | nil => simp at hx
      | cons z t => simpa using Or.inr hx
    have hlast' : rest' ≠ [] → rest'.getLastD lastCp = lastCp := by
      intro hne
      have := hlast (by simp)
      cases rest' with
      | nil => exact absurd rfl hne
      | cons z t => simpa using this
    have hlen := renderRowsGo_length wid wt wc wn rest' (renderRow wid wt wc wn e cp).2
    simp only [accumGo, renderRowsGo, chunkGo]
    split_ifs with h1 h2 h3 h3
    · exact ih FENCE (renderRow wid wt wc wn e cp).2 _ hdrop' hlast'
    · have : rest' = [] := by
        rw [h3] at hlen
        exact List.length_eq_zero.mp hlen.symm
      subst this
      rfl
    · exfalso
      cases hr : rest' with
      | nil =>
        rw [hr] at h3
        exact h3 rfl
      | cons z t =>
        exact hdrop cp (by simp [hr]) h2
    · exfalso
      have : rest' = [] := by
        rw [h3] at hlen
        exact List.length_eq_zero.mp hlen.symm
      subst this
      exact h2 (by simpa using hlast (by simp))
    · exact ih _ (renderRow wid wt wc wn e cp).2 _ hdrop' hlast'

theorem chunkGo_length_le :
    ∀ (lines : List PyStr) (table : PyStr) (acc : List PyStr),
      (∀ ln ∈ lines, ln.length ≤ COPYPASTA_LIST_CHARACTERS_PER_ROW) →
      table.length + COPYPASTA_LIST_CHARACTERS_PER_ROW + 3 ≤ DISCORD_CHARACTER_LIMIT →
      (∀ b ∈ acc, b.length ≤ DISCORD_CHARACTER_LIMIT) →
      ∀ b ∈ chunkGo lines table acc, b.length ≤ DISCORD_CHARACTER_LIMIT := by
  have h80 : COPYPASTA_LIST_CHARACTERS_PER_ROW = 80 := rfl
  have h2000 : DISCORD_CHARACTER_LIMIT = 2000 := rfl
  intro lines
  induction lines with
  | nil => intro table acc _ _ hacc b hb; exact hacc b hb
  | cons ln rest ih =>
    intro table acc hlines htable hacc b hb
    have hln : ln.length ≤ COPYPASTA_LIST_CHARACTERS_PER_ROW := hlines ln (by simp)
    have hrest : ∀ x ∈ rest, x.length ≤ COPYPASTA_LIST_CHARACTERS_PER_ROW := by
      intro x hx
      exact hlines x (by simp [hx])
    simp only [chunkGo] at hb
    split_ifs at hb with h1 h2
    · refine ih FENCE _ hrest (by simp [FENCE_length, h80, h2000]) ?_ b hb
      intro x hx
      rcases List.mem_append.mp hx with hx | hx
      · exact hacc x hx
      · have hx2 : x = table ++ ln ++ FENCE := by simpa using hx
        subst hx2
        simp only [List.length_append, FENCE_length]
        omega
    · subst h2
      rcases List.mem_append.mp hb with hx | hx
      · exact hacc b hx
      · have hx2 : b = table ++ ln ++ FENCE := by simpa using hx
        subst hx2
        simp only [List.length_append, FENCE_length]
        omega
    · refine ih (table ++ ln) _ hrest ?_ hacc b hb
      simp only [List.length_append] at h1 ⊢
      omega

theorem chunkGo_cons_pos {ln : PyStr} {rest : List PyStr} {t : PyStr} {acc : List PyStr}
    (h : DISCORD_CHARACTER_LIMIT <
      t.length + ln.length + COPYPASTA_LIST_CHARACTERS_PER_ROW + 3) :
    chunkGo (ln :: rest) t acc = chunkGo rest FENCE (acc ++ [t ++ ln ++ FENCE]) := by
  simp [chunkGo, List.length_append, h]

theorem chunkGo_cons_last {ln : PyStr} {t : PyStr} {acc : List PyStr}
    (h : ¬ DISCORD_CHARACTER_LIMIT <
      t.length + ln.length + COPYPASTA_LIST_CHARACTERS_PER_ROW + 3) :
    chunkGo [ln] t acc = acc ++ [t ++ ln ++ FENCE] := by
  simp [chunkGo, List.length_append, h]

theorem chunkGo_cons_mid {ln : PyStr} {rest : List PyStr} {t : PyStr} {acc : List PyStr}
    (h : ¬ DISCORD_CHARACTER_LIMIT <
      t.length + ln.length + COPYPASTA_LIST_CHARACTERS_PER_ROW + 3)
    (hr : rest ≠ []) :
    chunkGo (ln :: rest) t acc = chunkGo rest (t ++ ln) acc := by
  simp [chunkGo, List.length_append, h, hr]

theorem chunkGo_characterize :
    ∀ (lines : List PyStr) (t : PyStr) (acc : List PyStr), lines ≠ [] →
      ∃ (g1 : List PyStr) (gs : List (List PyStr)),
        g1 ≠ [] ∧ (∀ g ∈ gs, g ≠ []) ∧ g1 ++ gs.flatten = lines ∧
        chunkGo lines t acc =
          acc ++ (t ++ g1.flatten ++ FENCE) ::
            gs.map (fun g => FENCE ++ g.flatten ++ FENCE) := by
  intro lines
  induction lines with
  | nil => intro t acc h; exact absurd rfl h
  | cons ln rest ih =>
    intro t acc _
    by_cases h1 : DISCORD_CHARACTER_LIMIT <
        t.length + ln.length + COPYPASTA_LIST_CHARACTERS_PER_ROW + 3
    · by_cases hr : rest = []
      · subst hr
        refine ⟨[ln], [], by simp, by simp, by simp, ?_⟩
        rw [chunkGo_cons_pos h1]
        simp [chunkGo, List.append_assoc]
      · obtain ⟨g1', gs', hg1', hgs', hjoin, heq⟩ :=
          ih FENCE (acc ++ [t ++ ln ++ FENCE]) hr
        refine ⟨[ln], g1' :: gs', by simp, ?_, ?_, ?_⟩
        · intro g hg
          rcases List.mem_cons.mp hg with hg | hg
          · subst hg; exact hg1'
          · exact hgs' g hg
        · simp [hjoin]
        · rw [chunkGo_cons_pos h1, heq]
          simp [List.append_assoc]
    · by_cases hr : rest = []
      · subst hr
        refine ⟨[ln], [], by simp, by simp, by simp, ?_⟩
        rw [chunkGo_cons_last h1]
        simp [List.append_assoc]
      · obtain ⟨g1', gs', hg1', hgs', hjoin, heq⟩ := ih (t ++ ln) acc hr
        refine ⟨ln :: g1', gs', by simp, hgs', ?_, ?_⟩
        · simp [hjoin]
        · rw [chunkGo_cons_mid h1 hr, heq]
          simp [List.append_assoc]

theorem getLastD_eq_of_ne_nil {l : List Copypasta} {a b : Copypasta} (h : l ≠ []) :
    l.getLastD a = l.getLastD b := by
  rw [List.getLastD_eq_getLast?, List.getLastD_eq_getLast?, List.getLast?_eq_getLast l h]
  rfl

theorem format_eq_chunkGo (HI HT HC HN : PyStr) (l : List Copypasta) (e : PyStr)
    (hnd : l.Nodup) :
    format_copypasta_list HI HT HC HN l e =
      chunkGo (renderRowsGo (max_len_id HI l) (max_len_title HT l)
        (max_len_content HI HT HC HN l) (max_len_count HN l) e l)
        (FENCE ++ headerLine HI HT HC HN (max_len_id HI l) (max_len_title HT l)
          (max_len_content HI HT HC HN l) (max_len_count HN l)) [] := by
  unfold format_copypasta_list
  apply accumGo_eq_chunkGo
  · intro cp hcp hcontra
    have hne : l ≠ [] := by
      intro h
      subst h
      simp at hcp
    have hsplit := List.dropLast_append_getLast hne
    have hnd2 : (l.dropLast ++ [l.getLast hne]).Nodup := by rw [hsplit]; exact hnd
    have hdisj := List.disjoint_of_nodup_append hnd2
    have hlastD : l.getLastD ⟨0, [], [], 0⟩ = l.getLast hne := by
      rw [List.getLastD_eq_getLast?, List.getLast?_eq_getLast l hne]
      rfl
    rw [hlastD] at hcontra
    exact hdisj hcp (by simp [hcontra])
  · intro hne
    exact getLastD_eq_of_ne_nil hne

/-! Lemmas about the export chunker. -/

theorem nodup_dropLast_ne {l : List Copypasta} {d : Copypasta} (hnd : l.Nodup) :
    ∀ cp ∈ l.dropLast, cp ≠ l.getLastD d := by
  intro cp hcp hcontra
  have hne : l ≠ [] := by
    intro h
    subst h
    simp at hcp
  have hsplit := List.dropLast_append_getLast hne
  have hnd2 : (l.dropLast ++ [l.getLast hne]).Nodup := by rw [hsplit]; exact hnd
  have hdisj := List.disjoint_of_nodup_append hnd2
  have hlastD : l.getLastD d = l.getLast hne := by
    rw [List.getLastD_eq_getLast?, List.getLast?_eq_getLast l hne]
    rfl
  rw [hlastD] at hcontra
  exact hdisj hcp (by simp [hcontra])

theorem exportGo_skip_emit {lastCp cp : Copypasta} {rest : List Copypasta} {cur : Nat}
    {within : List Copypasta} {lists : List (List Copypasta)}
    (hbig : MAX_FILE_SIZE < soloSize cp)
    (hemit : MAX_FILE_SIZE < cur + soloSize cp ∧ within ≠ []) :
    exportGo lastCp (cp :: rest) cur within lists =
      exportGo lastCp rest cur [] (lists ++ [within]) := by
  simp [exportGo, hbig, hemit]

theorem exportGo_skip_noemit {lastCp cp : Copypasta} {rest : List Copypasta} {cur : Nat}
    {within : List Copypasta} {lists : List (List Copypasta)}
    (hbig : MAX_FILE_SIZE < soloSize cp)
    (hemit : ¬ (MAX_FILE_SIZE < cur + soloSize cp ∧ within ≠ [])) :
    exportGo lastCp (cp :: rest) cur within lists =
      exportGo lastCp rest cur within lists := by
  simp [exportGo, hbig, hemit]

theorem exportGo_keep_emit_last {lastCp cp : Copypasta} {rest : List Copypasta}
    {cur : Nat} {within : List Copypasta} {lists : List (List Copypasta)}
    (hsz : ¬ MAX_FILE_SIZE < soloSize cp)
    (hemit : MAX_FILE_SIZE < cur + soloSize cp ∧ within ≠ []) (hcp : cp = lastCp) :
    exportGo lastCp (cp :: rest) cur within lists =
      exportGo lastCp rest (withinSize [cp]) [cp] ((lists ++ [within]) ++ [[cp]]) := by
  subst hcp
  simp [exportGo, hsz, hemit]

theorem exportGo_keep_emit_mid {lastCp cp : Copypasta} {rest : List Copypasta}
    {cur : Nat} {within : List Copypasta} {lists : List (List Copypasta)}
    (hsz : ¬ MAX_FILE_SIZE < soloSize cp)
    (hemit : MAX_FILE_SIZE < cur + soloSize cp ∧ within ≠ []) (hcp : cp ≠ lastCp) :
    exportGo lastCp (cp :: rest) cur within lists =
      exportGo lastCp rest (withinSize [cp]) [cp] (lists ++ [within]) := by
  simp [exportGo, hsz, hemit, hcp]

theorem exportGo_keep_noemit_last {lastCp cp : Copypasta} {rest : List Copypasta}
    {cur : Nat} {within : List Copypasta} {lists : List (List Copypasta)}
    (hsz : ¬ MAX_FILE_SIZE < soloSize cp)
    (hemit : ¬ (MAX_FILE_SIZE < cur + soloSize cp ∧ within ≠ [])) (hcp : cp = lastCp) :
    exportGo lastCp (cp :: rest) cur within lists =
      exportGo lastCp rest (withinSize (within ++ [cp])) (within ++ [cp])
        (lists ++ [within ++ [cp]]) := by
  subst hcp
  simp [exportGo, hsz, hemit]

theorem exportGo_keep_noemit_mid {lastCp cp : Copypasta} {rest : List Copypasta}
    {cur : Nat} {within : List Copypasta} {lists : List (List Copypasta)}
    (hsz : ¬ MAX_FILE_SIZE < soloSize cp)
    (hemit : ¬ (MAX_FILE_SIZE < cur + soloSize cp ∧ within ≠ [])) (hcp : cp ≠ lastCp) :
    exportGo lastCp (cp :: rest) cur within lists =
      exportGo lastCp rest (withinSize (within ++ [cp])) (within ++ [cp]) lists := by
  simp [exportGo, hsz, hemit, hcp]

theorem exportGo_join {lastCp : Copypasta} :
    ∀ (rest : List Copypasta) (cur : Nat) (within : List Copypasta)
      (lists : List (List Copypasta)),
      (∀ cp ∈ rest, soloSize cp ≤ MAX_FILE_SIZE) →
      (∀ cp ∈ rest.dropLast, cp ≠ lastCp) →
      (rest ≠ [] → rest.getLastD lastCp = lastCp) →
      (exportGo lastCp rest cur within lists).flatten =
        lists.flatten ++
          (if rest = [] then ([] : List Copypasta) else within ++ rest) := by
  intro rest
  induction rest with
  | nil => intro cur within lists _ _ _; simp [exportGo]
  | cons cp rest' ih =>
    intro cur within lists hsize hdrop hlast
    have hsz : ¬ MAX_FILE_SIZE < soloSize cp := by
      have := hsize cp (by simp)
      omega
    have hdrop' : ∀ x ∈ rest'.dropLast, x ≠ lastCp := by
      intro x hx
      apply hdrop
      cases rest' with
      | nil => simp at hx
      | cons z t => simpa using Or.inr hx
    have hlast' : rest' ≠ [] → rest'.getLastD lastCp = lastCp := by
      intro hne
      have := hlast (by simp)
      cases rest' with
      | nil => exact absurd rfl hne
      | cons z t => simpa using this
    have hsize' : ∀ x ∈ rest', soloSize x ≤ MAX_FILE_SIZE := by
      intro x hx
      exact hsize x (by simp [hx])
    cases hrest : rest' with
    | nil =>
      subst hrest
      have hcp : cp = lastCp := by
        have h := hlast (by simp)
        rwa [show (cp :: ([] : List Copypasta)).getLastD lastCp = cp from rfl] at h
      by_cases hemit : MAX_FILE_SIZE < cur + soloSize cp ∧ within ≠ []
      · rw [exportGo_keep_emit_last hsz hemit hcp]
        simp [exportGo]
      · rw [exportGo_keep_noemit_last hsz hemit hcp]
        simp [exportGo]
    | cons z t =>
      have hcp : cp ≠ lastCp := hdrop cp (by simp [hrest])
      rw [← hrest]
      have hr' : rest' ≠ [] := by rw [hrest]; simp
      by_cases hemit : MAX_FILE_SIZE < cur + soloSize cp ∧ within ≠ []
      · rw [exportGo_keep_emit_mid hsz hemit hcp]
        rw [ih _ _ _ hsize' hdrop' hlast']
        simp [hr']
      · rw [exportGo_keep_noemit_mid hsz hemit hcp]
        rw [ih _ _ _ hsize' hdrop' hlast']
        simp [hr']

theorem exportGo_mem_size {lastCp : Copypasta} :
    ∀ (rest : List Copypasta) (cur : Nat) (within : List Copypasta)
      (lists : List (List Copypasta)),
      (∀ cp ∈ within, soloSize cp ≤ MAX_FILE_SIZE) →
      (∀ c ∈ lists, ∀ cp ∈ c, soloSize cp ≤ MAX_FILE_SIZE) →
      ∀ c ∈ exportGo lastCp rest cur within lists, ∀ cp ∈ c,
        soloSize cp ≤ MAX_FILE_SIZE := by
  intro rest
  induction rest with
  | nil =>
    intro cur within lists hwithin hlists c hc x hx
    exact hlists c hc x hx
  | cons cp rest' ih =>
    intro cur within lists hwithin hlists c hc x hx
    have hlist2 : ∀ c ∈ lists ++ [within], ∀ y ∈ c, soloSize y ≤ MAX_FILE_SIZE := by
      intro d hd
      rcases List.mem_append.mp hd with hd | hd
      · exact hlists d hd
      · have hdw : d = within := by simpa using hd
        subst hdw
        exact hwithin
    by_cases hbig : MAX_FILE_SIZE < soloSize cp
    · by_cases hemit : MAX_FILE_SIZE < cur + soloSize cp ∧ within ≠ []
      · rw [exportGo_skip_emit hbig hemit] at hc
        exact ih _ _ _ (by intro y hy; simp at hy) hlist2 c hc x hx
      · rw [exportGo_skip_noemit hbig hemit] at hc
        exact ih _ _ _ hwithin hlists c hc x hx
    · have hwcp : ∀ y ∈ within ++ [cp], soloSize y ≤ MAX_FILE_SIZE := by
        intro y hy
        rcases List.mem_append.mp hy with hy | hy
        · exact hwithin y hy
        · have hyc : y = cp := by simpa using hy
          subst hyc
          omega
      have hcponly : ∀ y ∈ [cp], soloSize y ≤ MAX_FILE_SIZE := by
        intro y hy
        have hyc : y = cp := by simpa using hy
        subst hyc
        omega
      by_cases hemit : MAX_FILE_SIZE < cur + soloSize cp ∧ within ≠ []
      · by_cases hcp : cp = lastCp
        · rw [exportGo_keep_emit_last hbig hemit hcp] at hc
          refine ih _ _ _ hcponly ?_ c hc x hx
          intro d hd
          rcases List.mem_append.mp hd with hd | hd
          · exact hlist2 d hd
          · have hdc : d = [cp] := by simpa using hd
            subst hdc
            exact hcponly
        · rw [exportGo_keep_emit_mid hbig hemit hcp] at hc
          exact ih _ _ _ hcponly hlist2 c hc x hx
      · by_cases hcp : cp = lastCp
        · rw [exportGo_keep_noemit_last hbig hemit hcp] at hc
          refine ih _ _ _ hwcp ?_ c hc x hx
          intro d hd
          rcases List.mem_append.mp hd with hd | hd
          · exact hlists d hd
          · have hdc : d = within ++ [cp] := by simpa using hd
            subst hdc
            exact hwcp
        · rw [exportGo_keep_noemit_mid hbig hemit hcp] at hc
          exact ih _ _ _ hwcp hlists c hc x hx

/-! Lemmas about the echo phrase synthesizer. -/

theorem gen_char_amount_pos (i : Nat) (pick : Fin 5) : 1 ≤ gen_char_amount i pick := by
  unfold gen_char_amount
  have h : (1 : Int) ≤ max 1 ((i : Int) + pick.val - 2) := le_max_left _ _
  omega

theorem gen_char_string_single_length (s : PyStr) (sub : Char) (pick : Fin 5)
    (cse : Nat → Bool) :
    (gen_char_string [s] sub [pick] cse).length = gen_char_amount s.length pick := by
  simp [gen_char_string]

theorem gen_char_string_pair_length (s t : PyStr) (sub : Char) (p1 p2 : Fin 5)
    (cse : Nat → Bool) :
    (gen_char_string [s, t] sub [p1, p2] cse).length =
      (gen_char_amount s.length p1 + gen_char_amount t.length p2) / 2 := by
  simp [gen_char_string]

theorem gen_punctuation_string_length (s : PyStr) (amt : Fin 5) (pick : Nat → Char) :
    (gen_punctuation_string s amt pick).length = gen_char_amount s.length amt := by
  simp [gen_punctuation_string]

/-! Byte-size lemmas for the export chunker. -/

theorem utf8Len_append (s t : PyStr) : utf8Len (s ++ t) = utf8Len s + utf8Len t := by
  simp [utf8Len]

theorem utf8Len_cons_pos (cc : Char) (rest : PyStr) : 1 ≤ utf8Len (cc :: rest) := by
  simp only [utf8Len, List.map_cons, List.sum_cons]
  have := Char.utf8Size_pos cc
  omega

theorem jsonEscapeChar_utf8_pos (ch : Char) : 1 ≤ utf8Len (jsonEscapeChar ch) := by
  unfold jsonEscapeChar
  split_ifs <;> exact utf8Len_cons_pos _ _

theorem length_le_utf8_escaped :
    ∀ (s : PyStr), s.length ≤ utf8Len (s.map jsonEscapeChar).flatten := by
  intro s
  induction s with
  | nil => simp [utf8Len]
  | cons ch rest ih =>
    simp only [List.map_cons, List.flatten_cons, utf8Len_append, List.length_cons]
    have := jsonEscapeChar_utf8_pos ch
    omega

theorem content_length_le_soloSize (cp : Copypasta) :
    cp.content.length ≤ soloSize cp := by
  have h1 : cp.content.length ≤ utf8Len (jsonQuote cp.content) := by
    simp only [jsonQuote]
    have h2 := length_le_utf8_escaped cp.content
    have h3 : utf8Len ('"' :: (cp.content.map jsonEscapeChar).flatten ++ ['"']) =
        utf8Len ['"'] + utf8Len (cp.content.map jsonEscapeChar).flatten + utf8Len ['"'] := by
      rw [show ('"' :: (cp.content.map jsonEscapeChar).flatten ++ ['"'] : PyStr) =
        ['"'] ++ (cp.content.map jsonEscapeChar).flatten ++ ['"'] from rfl]
      rw [utf8Len_append, utf8Len_append]
    omega
  have h4 : utf8Len (jsonQuote cp.content) ≤ soloSize cp := by
    simp only [soloSize, dumpsRecordAt, utf8Len_append]
    omega
  omega

/-! Lemmas for emphasis visibility. -/

theorem drop_one_append {A B : List Char} (hA : 1 ≤ A.length) :
    (A ++ B).drop 1 = A.drop 1 ++ B := by
  rw [List.drop_append_eq_append_drop]
  have h0 : 1 - A.length = 0 := by omega
  rw [h0]
  rfl

theorem take_pred_append {A B : List Char} (hB : 1 ≤ B.length) :
    (A ++ B).take ((A ++ B).length - 1) = A ++ B.take (B.length - 1) := by
  rw [List.take_append_eq_append_take]
  rw [List.take_of_length_le (by simp; omega)]
  have h0 : (A ++ B).length - 1 - A.length = B.length - 1 := by simp; omega
  rw [h0]

theorem pySliceFrom_padlen {s : PyStr} (h : 1 ≤ s.length) :
    pySliceFrom s (PADDING_LEN : Int) = s.drop 1 := by
  have hP : PADDING_LEN = 1 := rfl
  have hidx : pyIdx s.length (PADDING_LEN : Int) = 1 := by
    unfold pyIdx
    split_ifs with hc
    · rw [hP] at hc; omega
    · rw [hP]; omega
  simp [pySliceFrom, hidx]

theorem pySliceTo_sub_padlen {s : PyStr} (h : 1 ≤ s.length) :
    pySliceTo s ((s.length : Int) - (PADDING_LEN : Int)) = s.take (s.length - 1) := by
  have hP : PADDING_LEN = 1 := rfl
  have hidx : pyIdx s.length ((s.length : Int) - (PADDING_LEN : Int)) =
      s.length - 1 := by
    unfold pyIdx
    split_ifs with hc
    · rw [hP] at hc; omega
    · rw [hP]; omega
  simp [pySliceTo, hidx]

theorem emphOverlay_structure (pl pr : Bool) (lp mid rp : PyStr)
    (hmid : 1 ≤ mid.length)
    (hl : pl = true → 1 ≤ lp.length) (hr : pr = true → 1 ≤ rp.length) :
    ∃ x y, emphOverlay pl pr (lp ++ mid ++ rp) = x ++ mid ++ y := by
  unfold emphOverlay
  have hlen1 : 1 ≤ (lp ++ mid ++ rp).length := by simp; omega
  cases pl with
  | false =>
    cases pr with
    | false => exact ⟨lp, rp, by simp⟩
    | true =>
      have hrp := hr rfl
      refine ⟨lp, rp.take (rp.length - 1) ++ PADDING, ?_⟩
      simp only [Bool.false_eq_true, if_false, if_true]
      rw [pySliceTo_sub_padlen hlen1]
      rw [show (lp ++ mid ++ rp : PyStr) = (lp ++ mid) ++ rp from by simp]
      rw [take_pred_append hrp]
      simp [List.append_assoc]
  | true =>
    have hlp := hl rfl
    have hstep : PADDING ++ pySliceFrom (lp ++ mid ++ rp) (PADDING_LEN : Int) =
        (PADDING ++ lp.drop 1) ++ mid ++ rp := by
      rw [pySliceFrom_padlen hlen1]
      rw [show (lp ++ mid ++ rp : PyStr) = lp ++ (mid ++ rp) from by simp]
      rw [drop_one_append hlp]
      simp [List.append_assoc]
    cases pr with
    | false =>
      refine ⟨PADDING ++ lp.drop 1, rp, ?_⟩
      simp only [if_true, Bool.false_eq_true, if_false]
      rw [hstep]
    | true =>
      have hrp := hr rfl
      have hlen2 : 1 ≤ ((PADDING ++ lp.drop 1) ++ mid ++ rp).length := by simp; omega
      refine ⟨PADDING ++ lp.drop 1, rp.take (rp.length - 1) ++ PADDING, ?_⟩
      simp only [if_true]
      rw [hstep]
      rw [pySliceTo_sub_padlen hlen2]
      rw [show ((PADDING ++ lp.drop 1) ++ mid ++ rp : PyStr) =
        ((PADDING ++ lp.drop 1) ++ mid) ++ rp from by simp]
      rw [take_pred_append hrp]
      simp [List.append_assoc]

theorem spacesFinal_fst_ge_of_not_lt {ls0 rs0 L R : Int} (h : ¬ L < ls0) :
    ls0 ≤ (spacesFinal ls0 rs0 L R).1 := by
  rw [spacesFinal_spec]
  split_ifs <;> dsimp only <;> omega

theorem spacesFinal_snd_ge_min {ls0 rs0 L R : Int} (h1 : 0 ≤ ls0) :
    min R rs0 ≤ (spacesFinal ls0 rs0 L R).2 := by
  rw [spacesFinal_spec]
  split_ifs <;> dsimp only <;> omega

theorem section_content_emph_contains {w : Nat} {content e : PyStr}
    (hne : e ≠ []) (hlen : e.length + 2 ≤ w)
    (hfound : pyContains (pyUpper content) (pyUpper e) = true) :
    ∃ mid x y, pyUpper mid = pyUpper e ∧
      (section_content_emph w content e).1 = x ++ mid ++ y := by
  obtain ⟨k, hk⟩ := Option.isSome_iff_exists.mp hfound
  obtain ⟨hkle, htake⟩ := pyFind_some_spec hk
  simp only [pyUpper_length] at hkle htake
  have hel1 : 1 ≤ e.length := List.length_pos.mpr hne
  have hlenw : e.length ≤ w := by omega
  have hfst : (section_content_emph w content e).1 =
      emphCompose w content (e.length : Int) (k : Int) := by
    simp only [section_content_emph, emphClip_eq hlenw, hk]
  have hidxk : pyIdx content.length (k : Int) = k := by
    unfold pyIdx
    split_ifs <;> omega
  have hidxke : pyIdx content.length ((k : Int) + (e.length : Int)) = k + e.length := by
    unfold pyIdx
    split_ifs <;> omega
  have harith : k + e.length - k = e.length := by omega
  have hmidU : pyUpper (pySlice content (k : Int) ((k : Int) + (e.length : Int))) =
      pyUpper e := by
    have h5 : pySlice content (k : Int) ((k : Int) + (e.length : Int)) =
        (content.take (k + e.length)).drop k := by
      simp only [pySlice, hidxk, hidxke]
    rw [h5]
    show List.map Char.toUpper ((content.take (k + e.length)).drop k) = pyUpper e
    rw [List.map_drop, List.map_take, List.drop_take, harith]
    exact htake
  have hmidlen : 1 ≤ (pySlice content (k : Int) ((k : Int) + (e.length : Int))).length := by
    rw [pySlice_length, hidxk, hidxke]
    omega
  obtain ⟨hd1, hd2, hd3⟩ := divide_in_pairs_spec ((w : Int) - (e.length : Int))
  have hls0 : 1 ≤ (divide_in_pairs ((w : Int) - (e.length : Int))).1 := by omega
  have hrs0 : 1 ≤ (divide_in_pairs ((w : Int) - (e.length : Int))).2 := by omega
  have hLlen : (pySliceTo content (k : Int)).length = k := by
    rw [pySliceTo_length, hidxk]
  have hRlen : (pySliceFrom content ((k : Int) + (e.length : Int))).length =
      content.length - (k + e.length) := by
    rw [pySliceFrom_length, hidxke]
  rw [hfst]
  have hstruct := emphOverlay_structure
    (decide ((divide_in_pairs ((w : Int) - (e.length : Int))).1 <
      ((pySliceTo content (k : Int)).length : Int)))
    (decide ((divide_in_pairs ((w : Int) - (e.length : Int))).2 <
      ((pySliceFrom content ((k : Int) + (e.length : Int))).length : Int)))
    (pySliceFrom (pySliceTo content (k : Int))
      (((pySliceTo content (k : Int)).length : Int) -
        (spacesFinal (divide_in_pairs ((w : Int) - (e.length : Int))).1
          (divide_in_pairs ((w : Int) - (e.length : Int))).2
          ((pySliceTo content (k : Int)).length : Int)
          ((pySliceFrom content ((k : Int) + (e.length : Int))).length : Int)).1))
    (pySlice content (k : Int) ((k : Int) + (e.length : Int)))
    (pySliceTo (pySliceFrom content ((k : Int) + (e.length : Int)))
      (spacesFinal (divide_in_pairs ((w : Int) - (e.length : Int))).1
        (divide_in_pairs ((w : Int) - (e.length : Int))).2
        ((pySliceTo content (k : Int)).length : Int)
        ((pySliceFrom content ((k : Int) + (e.length : Int))).length : Int)).2)
    hmidlen
    (by
      intro hpl
      have hplt := of_decide_eq_true hpl
      have hage := @spacesFinal_fst_ge_of_not_lt
        (divide_in_pairs ((w : Int) - (e.length : Int))).1
        (divide_in_pairs ((w : Int) - (e.length : Int))).2
        ((pySliceTo content (k : Int)).length : Int)
        ((pySliceFrom content ((k : Int) + (e.length : Int))).length : Int)
        (by omega)
      rw [pySliceFrom_length]
      rw [hLlen] at hplt hage ⊢
      unfold pyIdx
      split_ifs <;> omega)
    (by
      intro hpr
      have hprt := of_decide_eq_true hpr
      have hbge := @spacesFinal_snd_ge_min
        (divide_in_pairs ((w : Int) - (e.length : Int))).1
        (divide_in_pairs ((w : Int) - (e.length : Int))).2
        ((pySliceTo content (k : Int)).length : Int)
        ((pySliceFrom content ((k : Int) + (e.length : Int))).length : Int)
        (by omega)
      rw [pySliceTo_length]
      rw [hRlen] at hprt hbge ⊢
      unfold pyIdx
      split_ifs <;> omega)
  obtain ⟨x, y, hxy⟩ := hstruct
  exact ⟨pySlice content (k : Int) ((k : Int) + (e.length : Int)), x, y, hmidU, hxy⟩

/-! ## The claims

Each claim of the specification is settled by one theorem below; a
corrected claim also gets a counterexample at a concrete input refuting
its original wording, and every hypothesized theorem gets a closed
witness discharging its hypotheses at a concrete input. -/

/-- C1 (amended): for every render call of the chunk accumulator on a
non-empty, duplicate-free row list in which the fenced heading line plus
one row allotment plus the closing fence fits the block-size ceiling and
every rendered row line is at most one row allotment long, every emitted
block (fences included) has length at most `DISCORD_CHARACTER_LIMIT`. -/
theorem c1_block_size_bound (HI HT HC HN : PyStr) (l : List Copypasta) (e : PyStr)
    (hne : l ≠ []) (hnd : l.Nodup)
    (hhdr : (FENCE ++ headerLine HI HT HC HN (max_len_id HI l) (max_len_title HT l)
        (max_len_content HI HT HC HN l) (max_len_count HN l)).length +
      COPYPASTA_LIST_CHARACTERS_PER_ROW + FENCE.length ≤ DISCORD_CHARACTER_LIMIT)
    (hrows : ∀ ln ∈ renderRowsGo (max_len_id HI l) (max_len_title HT l)
        (max_len_content HI HT HC HN l) (max_len_count HN l) e l,
      ln.length ≤ COPYPASTA_LIST_CHARACTERS_PER_ROW) :
    ∀ b ∈ format_copypasta_list HI HT HC HN l e,
      b.length ≤ DISCORD_CHARACTER_LIMIT := by
  rw [format_eq_chunkGo HI HT HC HN l e hnd]
  refine chunkGo_length_le _ _ _ hrows ?_ (by simp)
  have h3 : FENCE.length = 3 := FENCE_length
  omega

/-- C1, counterexample to the unamended claim: under a 1000-character id
heading the one-row render emits a single block of 2024 characters,
beyond `DISCORD_CHARACTER_LIMIT`. -/
theorem c1_counterexample :
    (format_copypasta_list c1HI "T".data "C".data "N".data c1L []).length = 1 ∧
    DISCORD_CHARACTER_LIMIT <
      ((format_copypasta_list c1HI "T".data "C".data "N".data c1L []).getD 0 []).length := by
  have hwid : max_len_id c1HI c1L = 1000 := by decide
  have hwt : max_len_title "T".data c1L = 1 := by decide
  have hwc : max_len_content c1HI "T".data "C".data "N".data c1L = 1 := by decide
  have hwn : max_len_count "N".data c1L = 1 := by decide
  have hrow : (renderRow 1000 1 1 1 [] c1cp).1.length = 1000 + 1 + 1 + 1 + 6 :=
    renderRow_fst_length (by decide) (by decide) (Or.inl (by decide))
      (Or.inl (by decide)) (Or.inl rfl)
  have hhdr : (headerLine c1HI "T".data "C".data "N".data 1000 1 1 1).length = 1009 := by
    simp only [headerLine, rowFormat_length]
    rw [pyCenter_length_of_le (show c1HI.length ≤ 1000 by
        rw [show c1HI.length = 1000 from List.length_replicate 1000 'I']),
      pyCenter_length_of_le (show ("T".data : PyStr).length ≤ 1 by decide),
      pyCenter_length_of_le (show ("C".data : PyStr).length ≤ 1 by decide),
      pyCenter_length_of_le (show ("N".data : PyStr).length ≤ 1 by decide)]
  have h80 : COPYPASTA_LIST_CHARACTERS_PER_ROW = 80 := rfl
  have h2000 : DISCORD_CHARACTER_LIMIT = 2000 := rfl
  have hformat : format_copypasta_list c1HI "T".data "C".data "N".data c1L [] =
      [(FENCE ++ headerLine c1HI "T".data "C".data "N".data 1000 1 1 1) ++
        (renderRow 1000 1 1 1 [] c1cp).1 ++ FENCE] := by
    rw [format_eq_chunkGo c1HI "T".data "C".data "N".data c1L [] (by decide),
      hwid, hwt, hwc, hwn]
    have hlines : renderRowsGo 1000 1 1 1 [] c1L = [(renderRow 1000 1 1 1 [] c1cp).1] := by
      simp [c1L, renderRowsGo]
    rw [hlines, chunkGo_cons_pos (by
      simp only [List.length_append, FENCE_length, hhdr, hrow]
      omega)]
    simp [chunkGo]
  constructor
  · rw [hformat]
    rfl
  · rw [hformat]
    simp only [List.getD_cons_zero, List.length_append, FENCE_length, hhdr, hrow]
    omega

/-- C1, witness: a small render satisfies every hypothesis of
`c1_block_size_bound` and every block respects the ceiling. -/
theorem c1_witness :
    c1wL ≠ [] ∧ c1wL.Nodup ∧
    ∀ b ∈ format_copypasta_list "I".data "T".data "C".data "N".data c1wL [],
      b.length ≤ DISCORD_CHARACTER_LIMIT :=
  ⟨by decide, by decide, c1_block_size_bound "I".data "T".data "C".data "N".data
    c1wL [] (by decide) (by decide) (by decide) (by decide)⟩

/-- C2 (amended): for every content cell over ASCII text — each character
of the cell's content and of the emphasis below code point 128, so that
Python's `str.upper()` is the length-preserving per-character map and the
match index found in the uppercased strings is valid in the original
content — whose content contains the emphasis case-insensitively and
whose emphasis, plus one elision glyph on each side, fits in the
committed content width, the rendered cell contains a substring equal to
the emphasis up to letter case (the cell keeps the content's own
casing).  Beyond ASCII, an expanding case mapping such as `ß` to `SS`
shifts the match index and can hide the emphasis entirely. -/
theorem c2_emphasis_up_to_case (w : Nat) (content e : PyStr)
    (hca : content.all (fun ch => ch.toNat < 128) = true)
    (hea : e.all (fun ch => ch.toNat < 128) = true)
    (hne : e ≠ []) (hlen : e.length + 2 * PADDING_LEN ≤ w)
    (hfound : pyContains (pyUpper content) (pyUpper e) = true) :
    ∃ mid, pyUpper mid = pyUpper e ∧
      pyContains (pyLJust (section_content_emph w content e).1 w) mid = true := by
  have hP : PADDING_LEN = 1 := rfl
  obtain ⟨mid, x, y, hU, hsplit⟩ :=
    @section_content_emph_contains w content e hne (by omega) hfound
  refine ⟨mid, hU, ?_⟩
  have hsp : pyLJust (section_content_emph w content e).1 w =
      x ++ mid ++ (y ++ List.replicate (w - (x ++ mid ++ y).length) ' ') := by
    simp only [pyLJust, hsplit, List.append_assoc]
  exact pyContains_of_append hsp

/-- C2, counterexample to the unamended claim: the content `xABc` matches
the emphasis `ab` case-insensitively and the emphasis fits the committed
width, yet the rendered cell does not contain `ab` as an exact substring
(it shows the content's casing `AB`). -/
theorem c2_counterexample :
    ("ab".data : PyStr).length ≤
      max_len_content "I".data "T".data "CC".data "N".data c2L ∧
    pyContains (pyUpper "xABc".data) (pyUpper "ab".data) = true ∧
    pyContains (pyLJust (section_content_emph
        (max_len_content "I".data "T".data "CC".data "N".data c2L) "xABc".data
        "ab".data).1
      (max_len_content "I".data "T".data "CC".data "N".data c2L)) "ab".data = false := by
  decide

/-- C2, witness: the ASCII emphasis `cd` inside the ASCII content
`abcdef` at width 10 satisfies every hypothesis of
`c2_emphasis_up_to_case` and stays visible. -/
theorem c2_witness :
    ("abcdef".data : PyStr).all (fun ch => ch.toNat < 128) = true ∧
    ("cd".data : PyStr).all (fun ch => ch.toNat < 128) = true ∧
    ("cd".data : PyStr) ≠ [] ∧ ("cd".data : PyStr).length + 2 * PADDING_LEN ≤ 10 ∧
    pyContains (pyUpper "abcdef".data) (pyUpper "cd".data) = true ∧
    ∃ mid, pyUpper mid = pyUpper "cd".data ∧
      pyContains (pyLJust (section_content_emph 10 "abcdef".data "cd".data).1 10)
        mid = true :=
  ⟨by decide, by decide, by decide, by decide, by decide,
    c2_emphasis_up_to_case 10 "abcdef".data "cd".data (by decide) (by decide) (by decide)
      (by decide) (by decide)⟩

/-- C3 (amended): for every render call on a non-empty, duplicate-free
ordered row list, the rendered row lines partition, in order, into the
first block's group and the later blocks' groups, their total count
equals the input row count, and the emitted blocks are exactly the
fenced header-plus-first-group followed by the fenced later groups. -/
theorem c3_row_conservation (HI HT HC HN : PyStr) (l : List Copypasta) (e : PyStr)
    (hne : l ≠ []) (hnd : l.Nodup) :
    ∃ (g1 : List PyStr) (gs : List (List PyStr)),
      g1 ≠ [] ∧ (∀ g ∈ gs, g ≠ []) ∧
      g1 ++ gs.flatten = renderRowsGo (max_len_id HI l) (max_len_title HT l)
        (max_len_content HI HT HC HN l) (max_len_count HN l) e l ∧
      (g1 ++ gs.flatten).length = l.length ∧
      format_copypasta_list HI HT HC HN l e =
        (FENCE ++ headerLine HI HT HC HN (max_len_id HI l) (max_len_title HT l)
            (max_len_content HI HT HC HN l) (max_len_count HN l) ++
          g1.flatten ++ FENCE) ::
          gs.map (fun g => FENCE ++ g.flatten ++ FENCE) := by
  have hlines_ne : renderRowsGo (max_len_id HI l) (max_len_title HT l)
      (max_len_content HI HT HC HN l) (max_len_count HN l) e l ≠ [] := by
    intro hcon
    have hlen := renderRowsGo_length (max_len_id HI l) (max_len_title HT l)
      (max_len_content HI HT HC HN l) (max_len_count HN l) l e
    rw [hcon] at hlen
    exact hne (List.length_eq_zero.mp hlen.symm)
  obtain ⟨g1, gs, h1, h2, h3, h4⟩ := chunkGo_characterize _
    (FENCE ++ headerLine HI HT HC HN (max_len_id HI l) (max_len_title HT l)
      (max_len_content HI HT HC HN l) (max_len_count HN l)) [] hlines_ne
  refine ⟨g1, gs, h1, h2, h3, ?_, ?_⟩
  · rw [h3]
    exact renderRowsGo_length (max_len_id HI l) (max_len_title HT l)
      (max_len_content HI HT HC HN l) (max_len_count HN l) l e
  · rw [format_eq_chunkGo HI HT HC HN l e hnd, h4]
    simp [List.append_assoc]

/-- C3, counterexample to the unamended claim: a list holding the same
row twice renders that row three times across the emitted blocks (the
value-equality test against the last element closes the table at the
first copy without resetting it). -/
theorem c3_counterexample :
    (format_copypasta_list "I".data "T".data "C".data "N".data c3L []).length = 2 ∧
    countSub (format_copypasta_list "I".data "T".data "C".data "N".data c3L []).flatten
      "|1|t|c|0|\n".data = 3 ∧
    c3L.length = 2 := by decide

/-- C3, witness: a duplicate-free two-row list satisfies the hypotheses
of `c3_row_conservation` and its rows are conserved. -/
theorem c3_witness :
    c3wL ≠ [] ∧ c3wL.Nodup ∧
    (∃ (g1 : List PyStr) (gs : List (List PyStr)),
      g1 ≠ [] ∧ (∀ g ∈ gs, g ≠ []) ∧
      g1 ++ gs.flatten = renderRowsGo (max_len_id "I".data c3wL)
        (max_len_title "T".data c3wL)
        (max_len_content "I".data "T".data "C".data "N".data c3wL)
        (max_len_count "N".data c3wL) [] c3wL ∧
      (g1 ++ gs.flatten).length = c3wL.length ∧
      format_copypasta_list "I".data "T".data "C".data "N".data c3wL [] =
        (FENCE ++ headerLine "I".data "T".data "C".data "N".data
            (max_len_id "I".data c3wL) (max_len_title "T".data c3wL)
            (max_len_content "I".data "T".data "C".data "N".data c3wL)
            (max_len_count "N".data c3wL) ++
          g1.flatten ++ FENCE) ::
          gs.map (fun g => FENCE ++ g.flatten ++ FENCE)) :=
  ⟨by decide, by decide, c3_row_conservation "I".data "T".data "C".data "N".data
    c3wL [] (by decide) (by decide)⟩

/-- C4 (amended): for every render call with at least one row, provided
the emphasis is empty or fits the committed content width and the
content column is at least one character wide or every newline-stripped
content fits it, every rendered row line has the same length: the sum of
the four committed column widths plus the six separator characters. -/
theorem c4_grid (HI HT HC HN : PyStr) (l : List Copypasta) (e : PyStr)
    (he : e = [] ∨ e.length ≤ max_len_content HI HT HC HN l)
    (hcw : 1 ≤ max_len_content HI HT HC HN l ∨
      ∀ cp ∈ l, (cp.content.filter (fun ch => ch ≠ '\n')).length ≤
        max_len_content HI HT HC HN l) :
    ∀ line ∈ renderRowsGo (max_len_id HI l) (max_len_title HT l)
        (max_len_content HI HT HC HN l) (max_len_count HN l) e l,
      line.length = max_len_id HI l + max_len_title HT l +
        max_len_content HI HT HC HN l + max_len_count HN l + 6 := by
  refine renderRowsGo_grid l e ?_ ?_ ?_ ?_ he
  · intro cp hcp
    exact le_trans (pyStrNat_length_mono (id_le_maxIdOf hcp)) (Nat.le_max_right _ _)
  · intro cp hcp
    exact le_trans (pyStrNat_length_mono (count_le_maxCountOf hcp)) (Nat.le_max_right _ _)
  · intro cp hcp
    by_cases hx : cp.title.length ≤ max_len_title HT l
    · exact Or.inl hx
    · refine Or.inr ?_
      have h2 := title_le_maxTitleLenOf hcp
      have hL : LIMIT_LEN_TITLE = 20 := rfl
      have hunf : max_len_title HT l =
          max HT.length (min LIMIT_LEN_TITLE (maxTitleLenOf l)) := rfl
      rw [hunf, hL] at hx ⊢
      omega
  · intro cp hcp
    rcases hcw with hcw | hcw
    · exact Or.inr hcw
    · exact Or.inl (hcw cp hcp)

/-- C4, counterexample to the unamended claim: when the emphasis equals a
content that fills the committed width exactly, the emphasis window
composition pads the cell past the committed width and the row line is
longer than the other rows' (the grid is not rectangular). -/
theorem c4_counterexample :
    ¬ (∀ line ∈ renderRowsGo (max_len_id "I".data c4L) (max_len_title "T".data c4L)
        (max_len_content "I".data "T".data "C".data "N".data c4L)
        (max_len_count "N".data c4L) (List.replicate 76 'a') c4L,
      line.length = max_len_id "I".data c4L + max_len_title "T".data c4L +
        max_len_content "I".data "T".data "C".data "N".data c4L +
        max_len_count "N".data c4L + 6) := by decide

/-- C4, witness: an emphasis-free one-row render satisfies the
hypotheses of `c4_grid` and its row line has the committed width. -/
theorem c4_witness :
    1 ≤ max_len_content "I".data "T".data "C".data "N".data c4wL ∧
    ∀ line ∈ renderRowsGo (max_len_id "I".data c4wL) (max_len_title "T".data c4wL)
        (max_len_content "I".data "T".data "C".data "N".data c4wL)
        (max_len_count "N".data c4wL) [] c4wL,
      line.length = max_len_id "I".data c4wL + max_len_title "T".data c4wL +
        max_len_content "I".data "T".data "C".data "N".data c4wL +
        max_len_count "N".data c4wL + 6 :=
  ⟨by decide, c4_grid "I".data "T".data "C".data "N".data c4wL [] (Or.inl rfl)
    (Or.inl (by decide))⟩

/-- C5: for every duplicate-free record list in which each record's solo
serialized byte size fits the export ceiling, `copypasta_export_json`
returns exactly one serialized buffer per chunk and the chunks'
concatenation, in buffer order then within-buffer order, is exactly the
input record sequence: nothing dropped, duplicated or reordered, and no
record reported invalid. -/
theorem c5_export_round_trip (l : List Copypasta) (hnd : l.Nodup)
    (hfit : ∀ cp ∈ l, soloSize cp ≤ MAX_FILE_SIZE) :
    copypasta_export_json l = (exportChunks l).map dumpsListRecords ∧
    (exportChunks l).flatten = l := by
  refine ⟨rfl, ?_⟩
  unfold exportChunks
  rw [exportGo_join l 0 [] [] hfit (nodup_dropLast_ne hnd)
    (fun hne => getLastD_eq_of_ne_nil hne)]
  by_cases h : l = []
  · subst h; simp
  · simp [h]

/-- C5, witness: two small records satisfy the hypotheses of
`c5_export_round_trip` and round-trip through the export chunks. -/
theorem c5_witness :
    c5L.Nodup ∧ (∀ cp ∈ c5L, soloSize cp ≤ MAX_FILE_SIZE) ∧
    (exportChunks c5L).flatten = c5L :=
  ⟨by decide, by decide, (c5_export_round_trip c5L (by decide) (by decide)).2⟩

/-- The 8323073-character record of the C6 analysis is wider than the
export byte ceiling on its own. -/
theorem c6big_oversized : MAX_FILE_SIZE < soloSize c6big := by
  have h2 := content_length_le_soloSize c6big
  have hlen : (c6big).content.length = 8323073 := by
    show (List.replicate 8323073 'z').length = 8323073
    rw [List.length_replicate]
  rw [hlen] at h2
  have hM : MAX_FILE_SIZE = 8323072 := rfl
  omega

/-- C6 (amended): a record whose solo serialized size exceeds the export
byte ceiling appears in no emitted chunk; the function returns only the
ordered buffer list, so the skipped record is not reported anywhere. -/
theorem c6_export_oversized_excluded (l : List Copypasta) (cp : Copypasta)
    (hbig : MAX_FILE_SIZE < soloSize cp) :
    ∀ c ∈ exportChunks l, cp ∉ c := by
  intro c hc hmem
  unfold exportChunks at hc
  have h := exportGo_mem_size l 0 [] [] (by simp) (by simp) c hc cp hmem
  omega

/-- C6, counterexample to the unamended claim: exporting a single
oversized record returns the empty buffer list; no `invalid` list (and no
other output) reports the skipped record. -/
theorem c6_counterexample :
    MAX_FILE_SIZE < soloSize c6big ∧
    copypasta_export_json [c6big] = [] ∧ exportChunks [c6big] = [] := by
  have hchunks : exportChunks [c6big] = [] := by
    unfold exportChunks
    rw [exportGo_skip_noemit c6big_oversized (fun hh => hh.2 rfl)]
    rfl
  refine ⟨c6big_oversized, ?_, hchunks⟩
  show (exportChunks [c6big]).map dumpsListRecords = []
  rw [hchunks]
  rfl

/-- C6, witness: the oversized record discharges the hypothesis of
`c6_export_oversized_excluded` and is excluded from every chunk. -/
theorem c6_witness :
    MAX_FILE_SIZE < soloSize c6big ∧ ∀ c ∈ exportChunks [c6big], c6big ∉ c :=
  ⟨c6big_oversized, c6_export_oversized_excluded [c6big] c6big c6big_oversized⟩

/-- C7 (amended): for a render call on a non-empty row list with no
duplicate rows, every emitted block after the first consists of a bare
code fence, a non-empty group of rendered row lines, and the closing
fence — the heading line is not repeated in later blocks.  (For a list
duplicating its last row, the early value-equality emission can instead
place the heading and embedded fences inside a later block.) -/
theorem c7_tail_blocks (HI HT HC HN : PyStr) (l : List Copypasta) (e : PyStr)
    (hne : l ≠ []) (hnd : l.Nodup) :
    ∀ b ∈ (format_copypasta_list HI HT HC HN l e).tail,
      ∃ g : List PyStr, g ≠ [] ∧
        (∀ r ∈ g, r ∈ renderRowsGo (max_len_id HI l) (max_len_title HT l)
          (max_len_content HI HT HC HN l) (max_len_count HN l) e l) ∧
        b = FENCE ++ g.flatten ++ FENCE := by
  have hlines_ne : renderRowsGo (max_len_id HI l) (max_len_title HT l)
      (max_len_content HI HT HC HN l) (max_len_count HN l) e l ≠ [] := by
    intro hcon
    have hlen := renderRowsGo_length (max_len_id HI l) (max_len_title HT l)
      (max_len_content HI HT HC HN l) (max_len_count HN l) l e
    rw [hcon] at hlen
    exact hne (List.length_eq_zero.mp hlen.symm)
  obtain ⟨g1, gs, h1, h2, h3, h4⟩ := chunkGo_characterize _
    (FENCE ++ headerLine HI HT HC HN (max_len_id HI l) (max_len_title HT l)
      (max_len_content HI HT HC HN l) (max_len_count HN l)) [] hlines_ne
  rw [format_eq_chunkGo HI HT HC HN l e hnd, h4]
  intro b hb
  simp only [List.nil_append, List.tail_cons] at hb
  obtain ⟨g, hg, hbg⟩ := List.mem_map.mp hb
  refine ⟨g, h2 g hg, ?_, hbg.symm⟩
  intro r hr
  rw [← h3]
  exact List.mem_append.mpr (Or.inr (List.mem_flatten.mpr ⟨g, hg, hr⟩))

/-- C7, counterexample to the unamended claim: in a four-row render that
overflows into a second block, the second block does not begin with the
fenced heading line (it opens with a bare fence and the third row). -/
theorem c7_counterexample :
    ((format_copypasta_list "I".data "T".data c7HC "N".data c7L []).getD 1 []).take
        (FENCE ++ headerLine "I".data "T".data c7HC "N".data (max_len_id "I".data c7L)
          (max_len_title "T".data c7L) (max_len_content "I".data "T".data c7HC "N".data c7L)
          (max_len_count "N".data c7L)).length ≠
      FENCE ++ headerLine "I".data "T".data c7HC "N".data (max_len_id "I".data c7L)
        (max_len_title "T".data c7L) (max_len_content "I".data "T".data c7HC "N".data c7L)
        (max_len_count "N".data c7L) := by
  have hwid : max_len_id "I".data c7L = 1 := by decide
  have hwt : max_len_title "T".data c7L = 1 := by decide
  have hwc : max_len_content "I".data "T".data c7HC "N".data c7L = 630 := by decide
  have hwn : max_len_count "N".data c7L = 1 := by decide
  rw [hwid, hwt, hwc, hwn]
  have hsnd : ∀ cp : Copypasta, (renderRow 1 1 630 1 [] cp).2 = [] :=
    fun cp => renderRow_snd_eq (Or.inl rfl)
  have hlines : renderRowsGo 1 1 630 1 [] c7L =
      [(renderRow 1 1 630 1 [] c7cp1).1, (renderRow 1 1 630 1 [] c7cp2).1,
        (renderRow 1 1 630 1 [] c7cp3).1, (renderRow 1 1 630 1 [] c7cp4).1] := by
    simp [c7L, renderRowsGo, hsnd]
  have hrow : ∀ cp ∈ c7L, (renderRow 1 1 630 1 [] cp).1.length = 1 + 1 + 630 + 1 + 6 := by
    intro cp hcp
    have hcp' : cp = c7cp1 ∨ cp = c7cp2 ∨ cp = c7cp3 ∨ cp = c7cp4 := by
      simpa [c7L] using hcp
    rcases hcp' with h | h | h | h <;> subst h <;>
      exact renderRow_fst_length (by decide) (by decide) (Or.inl (by decide))
        (Or.inl (by decide)) (Or.inl rfl)
  have hr1 := hrow c7cp1 (by simp [c7L])
  have hr2 := hrow c7cp2 (by simp [c7L])
  have hr3 := hrow c7cp3 (by simp [c7L])
  have hr4 := hrow c7cp4 (by simp [c7L])
  have hhdr : (headerLine "I".data "T".data c7HC "N".data 1 1 630 1).length = 639 := by
    simp only [headerLine, rowFormat_length]
    rw [pyCenter_length_of_le (show ("I".data : PyStr).length ≤ 1 by decide),
      pyCenter_length_of_le (show ("T".data : PyStr).length ≤ 1 by decide),
      pyCenter_length_of_le (show c7HC.length ≤ 630 by
        rw [show c7HC.length = 630 from List.length_replicate 630 'C']),
      pyCenter_length_of_le (show ("N".data : PyStr).length ≤ 1 by decide)]
  have h80 : COPYPASTA_LIST_CHARACTERS_PER_ROW = 80 := rfl
  have h2000 : DISCORD_CHARACTER_LIMIT = 2000 := rfl
  have hformat : format_copypasta_list "I".data "T".data c7HC "N".data c7L [] =
      [((FENCE ++ headerLine "I".data "T".data c7HC "N".data 1 1 630 1 ++
          (renderRow 1 1 630 1 [] c7cp1).1) ++ (renderRow 1 1 630 1 [] c7cp2).1) ++ FENCE,
        ((FENCE ++ (renderRow 1 1 630 1 [] c7cp3).1) ++ (renderRow 1 1 630 1 [] c7cp4).1)
          ++ FENCE] := by
    rw [format_eq_chunkGo "I".data "T".data c7HC "N".data c7L [] (by decide),
      hwid, hwt, hwc, hwn, hlines]
    rw [chunkGo_cons_mid (by
        simp only [List.length_append, FENCE_length, hhdr, hr1]
        omega) (by simp)]
    rw [chunkGo_cons_pos (by
      simp only [List.length_append, FENCE_length, hhdr, hr1, hr2]
      omega)]
    rw [chunkGo_cons_mid (by
        simp only [List.length_append, FENCE_length, hr3]
        omega) (by simp)]
    rw [chunkGo_cons_last (by
      simp only [List.length_append, FENCE_length, hr3, hr4]
      omega)]
    simp
  rw [hformat]
  simp only [List.getD_cons_succ, List.getD_cons_zero]
  have hn : (FENCE ++ headerLine "I".data "T".data c7HC "N".data 1 1 630 1).length = 642 := by
    simp only [List.length_append, FENCE_length, hhdr]
  rw [hn, List.append_assoc (FENCE ++ (renderRow 1 1 630 1 [] c7cp3).1)]
  rw [List.take_left' (show (FENCE ++ (renderRow 1 1 630 1 [] c7cp3).1).length = 642 by
    simp only [List.length_append, FENCE_length, hr3])]
  intro heq
  have h2 : (renderRow 1 1 630 1 [] c7cp3).1 =
      headerLine "I".data "T".data c7HC "N".data 1 1 630 1 :=
    List.append_cancel_left heq
  have h3 := congrArg (fun s : PyStr => s.getD 1 ' ') h2
  have hsid : section_id 1 c7cp3 = ['3'] := by decide
  have hcI : pyCenter "I".data 1 = ['I'] := by decide
  have hsep : SEPARATOR = ['|'] := rfl
  simp only [renderRow, headerLine, rowFormat, hsid, hcI, hsep, List.append_assoc,
    List.singleton_append, List.getD_cons_succ, List.getD_cons_zero] at h3
  exact absurd h3 (by decide)

/-- C7, witness: a single-block render satisfies the hypotheses of
`c7_tail_blocks` (its tail of later blocks being empty). -/
theorem c7_witness :
    c7wL ≠ [] ∧ c7wL.Nodup ∧
    ∀ b ∈ (format_copypasta_list "I".data "T".data "C".data "N".data c7wL []).tail,
      ∃ g : List PyStr, g ≠ [] ∧
        (∀ r ∈ g, r ∈ renderRowsGo (max_len_id "I".data c7wL)
          (max_len_title "T".data c7wL)
          (max_len_content "I".data "T".data "C".data "N".data c7wL)
          (max_len_count "N".data c7wL) [] c7wL) ∧
        b = FENCE ++ g.flatten ++ FENCE :=
  ⟨by decide, by decide, c7_tail_blocks "I".data "T".data "C".data "N".data c7wL []
    (by decide) (by decide)⟩

/-- C8 (amended): the width allocator has no failure path: whenever
`remainingBudget` is at most zero, the committed content width falls back
to the content heading's length and rendering proceeds. -/
theorem c8_width_fallback (HI HT HC HN : PyStr) (l : List Copypasta)
    (h : remainingBudget HI HT HN l ≤ 0) :
    max_len_content HI HT HC HN l = HC.length := by
  unfold max_len_content
  have hmc : (0 : Int) ≤ (maxContentLenOf l : Int) := Int.ofNat_nonneg _
  omega

/-- C8, counterexample to the unamended claim: under an 80-character
title heading the remaining budget is negative, yet the render commits
widths and emits a block instead of failing. -/
theorem c8_counterexample :
    remainingBudget "I".data c8HT "N".data c8L ≤ 0 ∧
    format_copypasta_list "I".data c8HT "C".data "N".data c8L [] ≠ [] := by decide

/-- C8, witness: the oversized title heading discharges the hypothesis of
`c8_width_fallback` and the content width equals the heading's length. -/
theorem c8_witness :
    remainingBudget "I".data c8HT "N".data c8L ≤ 0 ∧
    max_len_content "I".data c8HT "C".data "N".data c8L = ("C".data : PyStr).length :=
  ⟨by decide, c8_width_fallback "I".data c8HT "C".data "N".data c8L (by decide)⟩

/-- C9 (amended): `marco_polo` is the concatenation of its four phrase
groups and the optional punctuation, and each group emits exactly the
floor division of the sum of the per-run target lengths by the number of
runs: the single-run groups emit `gen_char_amount` of their run, the
`r`-`c` pair group emits `(t_r + t_c) / 2` rounded down, not the spec's
half-to-even rounding of the average. -/
theorem c9_group_floor_lengths (m a r c o p : PyStr) (amtPick : Nat → Fin 5)
    (casePick : Nat → Nat → Bool) (punctPick : Nat → Char) :
    marco_polo m a r c o p amtPick casePick punctPick =
      gen_char_string [m] 'P' [amtPick 0] (casePick 0) ++
        gen_char_string [a] 'O' [amtPick 1] (casePick 1) ++
        gen_char_string [r, c] 'L' [amtPick 2, amtPick 3] (casePick 2) ++
        gen_char_string [o] 'O' [amtPick 4] (casePick 3) ++
        (if p ≠ [] then gen_punctuation_string p (amtPick 5) punctPick else []) ∧
    (gen_char_string [m] 'P' [amtPick 0] (casePick 0)).length =
      gen_char_amount m.length (amtPick 0) ∧
    (gen_char_string [a] 'O' [amtPick 1] (casePick 1)).length =
      gen_char_amount a.length (amtPick 1) ∧
    (gen_char_string [r, c] 'L' [amtPick 2, amtPick 3] (casePick 2)).length =
      (gen_char_amount r.length (amtPick 2) + gen_char_amount c.length (amtPick 3)) / 2 ∧
    (gen_char_string [o] 'O' [amtPick 4] (casePick 3)).length =
      gen_char_amount o.length (amtPick 4) :=
  ⟨rfl, gen_char_string_single_length m 'P' (amtPick 0) (casePick 0),
    gen_char_string_single_length a 'O' (amtPick 1) (casePick 1),
    gen_char_string_pair_length r c 'L' (amtPick 2) (amtPick 3) (casePick 2),
    gen_char_string_single_length o 'O' (amtPick 4) (casePick 3)⟩

/-- C9, counterexample to the unamended claim: with runs `rrr`/`ccc` and
target lengths 3 and 4, the pair group emits 7 / 2 = 3 characters while
the spec's `round(average(...))` asks for 4; the whole `marco_polo`
output has 6 characters where the spec's formula totals 7. -/
theorem c9_counterexample :
    (gen_char_string ["rrr".data, "ccc".data] 'L' [2, 3] (fun _ => false)).length = 3 ∧
    specRoundHalfEven (gen_char_amount ("rrr".data : PyStr).length 2 +
      gen_char_amount ("ccc".data : PyStr).length 3) 2 = 4 ∧
    (marco_polo "m".data "a".data "rrr".data "ccc".data "o".data []
      (fun n => if n = 3 then (3 : Fin 5) else 2) (fun _ _ => false)
      (fun _ => ' ')).length = 6 := by decide

/-- C10: for every string matched by the `MARCO` pattern and every
outcome of the random oracles, `marco_polo` is total: each group's
uppercase-ratio denominator (the joined length of its runs) is positive,
each of the four phrase groups emits at least one character, and the
result is non-empty. -/
theorem c10_marco_polo_total (s m a r c o p : PyStr) (amtPick : Nat → Fin 5)
    (casePick : Nat → Nat → Bool) (punctPick : Nat → Char)
    (h : MARCO_match s m a r c o p) :
    0 < joinedLen [m] ∧ 0 < joinedLen [a] ∧ 0 < joinedLen [r, c] ∧ 0 < joinedLen [o] ∧
    1 ≤ (gen_char_string [m] 'P' [amtPick 0] (casePick 0)).length ∧
    1 ≤ (gen_char_string [a] 'O' [amtPick 1] (casePick 1)).length ∧
    1 ≤ (gen_char_string [r, c] 'L' [amtPick 2, amtPick 3] (casePick 2)).length ∧
    1 ≤ (gen_char_string [o] 'O' [amtPick 4] (casePick 3)).length ∧
    marco_polo m a r c o p amtPick casePick punctPick ≠ [] := by
  obtain ⟨hs, hm, ha, hr, hc, ho, hp⟩ := h
  have h1m : 1 ≤ m.length := List.length_pos.mpr hm.1
  have h1a : 1 ≤ a.length := List.length_pos.mpr ha.1
  have h1r : 1 ≤ r.length := List.length_pos.mpr hr.1
  have h1c : 1 ≤ c.length := List.length_pos.mpr hc.1
  have h1o : 1 ≤ o.length := List.length_pos.mpr ho.1
  have hg1 := gen_char_string_single_length m 'P' (amtPick 0) (casePick 0)
  have hg2 := gen_char_string_single_length a 'O' (amtPick 1) (casePick 1)
  have hg3 := gen_char_string_pair_length r c 'L' (amtPick 2) (amtPick 3) (casePick 2)
  have hg4 := gen_char_string_single_length o 'O' (amtPick 4) (casePick 3)
  have hp1 := gen_char_amount_pos m.length (amtPick 0)
  have hp2 := gen_char_amount_pos a.length (amtPick 1)
  have hp3 := gen_char_amount_pos r.length (amtPick 2)
  have hp4 := gen_char_amount_pos c.length (amtPick 3)
  have hp5 := gen_char_amount_pos o.length (amtPick 4)
  have hj1 : joinedLen [m] = m.length := by simp [joinedLen]
  have hj2 : joinedLen [a] = a.length := by simp [joinedLen]
  have hj3 : joinedLen [r, c] = r.length + c.length := by simp [joinedLen]
  have hj4 : joinedLen [o] = o.length := by simp [joinedLen]
  refine ⟨by omega, by omega, by omega, by omega, by omega, by omega, by omega,
    by omega, ?_⟩
  have hpos : 0 < (marco_polo m a r c o p amtPick casePick punctPick).length := by
    simp only [marco_polo, List.length_append]
    omega
  exact List.ne_nil_of_length_pos hpos

/-- C10, witness: `Marco!` decomposes into the five runs and the
punctuation, and the synthesized reply is non-empty. -/
theorem c10_witness :
    MARCO_match "Marco!".data "M".data "a".data "r".data "c".data "o".data "!".data ∧
    marco_polo "M".data "a".data "r".data "c".data "o".data "!".data
      (fun _ => 2) (fun _ _ => true) (fun _ => '!') ≠ [] := by
  have hM : MARCO_match "Marco!".data "M".data "a".data "r".data "c".data "o".data
      "!".data := by
    unfold MARCO_match isMarcoRun isWordChar
    decide
  exact ⟨hM, (c10_marco_polo_total "Marco!".data "M".data "a".data "r".data "c".data
    "o".data "!".data (fun _ => 2) (fun _ _ => true) (fun _ => '!') hM).2.2.2.2.2.2.2.2⟩

end LoxleyBot
